import Mathlib

/-!
sa_webcClient: host-process orchestration (`index.js`)

A shallow embedding of `index.js`, the Electron main-process script:

* the size-loading step of `createWindow` (reading `www/size.config`),
* `createWindow` / `createMenu` as state transformers over an explicit host state
  that records the global `mainWindow`, the open windows and the ordered effects,
* the `app.on(...)` and `ipcMain.on(...)` handlers.

JavaScript strings are modelled as `List Char`.  Every string operation used by the
script (`trim`, `split` on a one-character separator, `startsWith`, `parseInt`)
only inspects characters of the Basic Multilingual Plane, so working with code
points instead of UTF-16 code units does not change any result.
-/

namespace SaWebcClient

/-! ## JavaScript values used by the script -/

/-- The JavaScript Number values that `parseInt` can return: `NaN`, `-0`, a finite
integer (including `+0`), and the two infinities. -/
inductive JSNumber where
  | nan
  | negZero
  | finite (z : Int)
  | posInf
  | negInf
  deriving DecidableEq, Repr

/-- ToBoolean on a Number: `NaN`, `+0` and `-0` are falsy, everything else truthy. -/
def JSNumber.truthy : JSNumber → Bool
  | .nan => false
  | .negZero => false
  | .finite z => decide (z ≠ 0)
  | .posInf => true
  | .negInf => true

/-- The expression `a || d` on Numbers. -/
def jsOr (a d : JSNumber) : JSNumber :=
  if a.truthy then a else d

/-- A Number that is an integer strictly greater than zero. -/
def JSNumber.isPositiveInteger : JSNumber → Bool
  | .finite z => decide (0 < z)
  | _ => false

/-- An exception value thrown by JavaScript code. -/
inductive JSError where
  | typeError (msg : String)
  | ioError (msg : String)
  deriving DecidableEq, Repr

/-! ## String primitives -/

/-- ECMAScript `WhiteSpace` and `LineTerminator` code points, the set removed by
`String.prototype.trim` and skipped by `parseInt`. -/
def isJSWhiteSpace (c : Char) : Bool :=
  let n := c.toNat
  n == 0x09 || n == 0x0A || n == 0x0B || n == 0x0C || n == 0x0D || n == 0x20 ||
  n == 0xA0 || n == 0x1680 || (0x2000 ≤ n && n ≤ 0x200A) || n == 0x2028 ||
  n == 0x2029 || n == 0x202F || n == 0x205F || n == 0x3000 || n == 0xFEFF

/-- The leading-whitespace half of `trim`. -/
def trimStart (s : List Char) : List Char :=
  s.dropWhile isJSWhiteSpace

/-- The trailing-whitespace half of `trim`. -/
def trimEnd (s : List Char) : List Char :=
  (s.reverse.dropWhile isJSWhiteSpace).reverse

/-- `String.prototype.trim`. -/
def trim (s : List Char) : List Char :=
  trimEnd (trimStart s)

/-- `s.split(sep)` for a one-character separator: always at least one part. -/
def split (sep : Char) : List Char → List (List Char)
  | [] => [[]]
  | c :: cs =>
    if c = sep then [] :: split sep cs
    else
      match split sep cs with
      | [] => [[c]]
      | p :: ps => (c :: p) :: ps

/-- `s.startsWith(c)` for a one-character argument. -/
def startsWith (s : List Char) (c : Char) : Bool :=
  match s with
  | [] => false
  | d :: _ => d == c

/-- Value of a character as a digit in radix `R` (`0-9`, `a-z`, `A-Z`), if any. -/
def digitValue (R : Nat) (c : Char) : Option Nat :=
  let n := c.toNat
  let v : Option Nat :=
    if 48 ≤ n ∧ n ≤ 57 then some (n - 48)
    else if 97 ≤ n ∧ n ≤ 122 then some (n - 87)
    else if 65 ≤ n ∧ n ≤ 90 then some (n - 55)
    else none
  match v with
  | some d => if d < R then some d else none
  | none => none

/-- Halving loop behind `bitLength`; `fuel` bounds the number of halvings. -/
def bitLengthAux : Nat → Nat → Nat
  | 0, _ => 0
  | fuel + 1, n => if n = 0 then 0 else bitLengthAux fuel (n / 2) + 1

/-- Number of binary digits of `n` (0 for 0), by repeated halving. -/
def bitLength (n : Nat) : Nat :=
  bitLengthAux n n

/-- Round a natural number to the nearest IEEE-754 double (ties to even); `none`
when the result overflows to `Infinity` (it needs more than 1024 binary digits).
Integers below `2^53` are exact. -/
def roundToDouble (n : Nat) : Option Nat :=
  if n < 2 ^ 53 then some n
  else
    let e := bitLength n - 53
    let q := n / 2 ^ e
    let r := n % 2 ^ e
    let half := 2 ^ (e - 1)
    let q' := if half < r ∨ (r = half ∧ q % 2 = 1) then q + 1 else q
    let m := q' * 2 ^ e
    if bitLength m ≤ 1024 then some m else none

/-- The Number for `sign * mathInt` as produced at the end of `parseInt`. -/
def toNumber (neg : Bool) (mathInt : Nat) : JSNumber :=
  if mathInt = 0 then (if neg then .negZero else .finite 0)
  else
    match roundToDouble mathInt with
    | some m => .finite (if neg then -(m : Int) else (m : Int))
    | none => if neg then .negInf else .posInf

/-- The sign-stripping step of `parseInt`: a leading `-` makes the sign negative,
a leading `-` or `+` is removed. -/
def stripSign : List Char → Bool × List Char
  | [] => (false, [])
  | c :: t => if c = '-' then (true, t) else if c = '+' then (false, t) else (false, c :: t)

/-- The radix step of `parseInt` called without a radix argument: a leading `0x`
or `0X` is removed and selects radix 16, otherwise the radix is 10. -/
def stripHexMarker : List Char → Nat × List Char
  | c0 :: c1 :: t => if c0 = '0' ∧ (c1 = 'x' ∨ c1 = 'X') then (16, t) else (10, c0 :: c1 :: t)
  | s => (10, s)

/-- Positional value of a digit string in radix `R`. -/
def digitsValue (R : Nat) (Z : List Char) : Nat :=
  Z.foldl (fun a c => a * R + (digitValue R c).getD 0) 0

/-- The global `parseInt(string)` with no radix argument. -/
def parseInt (input : List Char) : JSNumber :=
  let s := trimStart input
  let (neg, s1) := stripSign s
  let (R, s2) := stripHexMarker s1
  let Z := s2.takeWhile (fun c => (digitValue R c).isSome)
  if Z.isEmpty then .nan else toNumber neg (digitsValue R Z)

/-! ## The size-loading step of `createWindow` -/

/-- The two local variables `windowWidth` and `windowHeight`. -/
structure Size where
  windowWidth : JSNumber
  windowHeight : JSNumber
  deriving DecidableEq, Repr

/-- The string literal `'windowWidth'`. -/
def keyWidth : List Char := ['w', 'i', 'n', 'd', 'o', 'w', 'W', 'i', 'd', 't', 'h']

/-- The string literal `'windowHeight'`. -/
def keyHeight : List Char := ['w', 'i', 'n', 'd', 'o', 'w', 'H', 'e', 'i', 'g', 'h', 't']

/-- The initial values `let windowWidth = 1200; let windowHeight = 800;`. -/
def defaultSize : Size := ⟨.finite 1200, .finite 800⟩

/-- The block guarded by `parts.length === 2` in the `forEach` callback, applied to
`parts`. -/
def applyParts (acc : Size) : List (List Char) → Size
  | [p0, p1] =>
    let key := trim p0
    let value := trim p1
    if key = keyWidth then
      { acc with windowWidth := jsOr (parseInt value) (.finite 1200) }
    else if key = keyHeight then
      { acc with windowHeight := jsOr (parseInt value) (.finite 800) }
    else acc
  | _ => acc

/-- Body of the `lines.forEach(line => ...)` callback. -/
def processLine (acc : Size) (line : List Char) : Size :=
  if !(trim line).isEmpty && !(startsWith line '#') then
    applyParts acc (split '=' line)
  else acc

/-- The statements inside `try`, given the text returned by `readFileSync`. -/
def parseSizeConfig (sizeConfig : List Char) : Size :=
  (split '\n' (trim sizeConfig)).foldl processLine defaultSize

/-- The `try { ... } catch (err) { console.log(...) }` block: `read` is the outcome of
`fs.readFileSync(sizeConfigPath, 'utf8')`. The result carries the dimensions and
whether the fallback diagnostic was logged. Nothing inside `try` other than the
read can throw, and the handler itself only logs. -/
def loadSize (read : Except JSError (List Char)) : Except JSError (Size × Bool) :=
  let body : Except JSError Size :=
    match read with
    | .ok sizeConfig => .ok (parseSizeConfig sizeConfig)
    | .error e => .error e
  match body with
  | .ok sz => .ok (sz, false)
  | .error _ => .ok (defaultSize, true)

/-! ## Host state and effects -/

/-- Possible values of the global `let mainWindow;`. -/
inductive Ref where
  | undefined
  | null
  | window (id : Nat)
  deriving DecidableEq, Repr

/-- ToBoolean on the global: `undefined` and `null` are falsy, objects truthy. -/
def Ref.truthy : Ref → Bool
  | .undefined => false
  | .null => false
  | .window _ => true

/-- Event names passed to `mainWindow.webContents.on`. -/
inductive WebContentsEvent where
  | certificateError
  | selectClientCertificate
  | securityPolicyViolation
  deriving DecidableEq, Repr

/-- Channel names passed to `mainWindow.webContents.send`. -/
inductive Channel where
  | showUrlDialog
  | goForward
  | goBack
  | reload
  | stopLoading
  deriving DecidableEq, Repr

/-- The two `console.log` messages of the script. -/
inductive LogMessage where
  | usingDefaultSize
  | ctrlOPressed
  deriving DecidableEq, Repr

/-- Calls into Electron made by the script, in the order they are performed. -/
inductive Effect where
  | consoleLog (msg : LogMessage)
  | newBrowserWindow (id : Nat) (width height : JSNumber)
  | loadURL (id : Nat)
  | onWebContents (id : Nat) (event : WebContentsEvent)
  | onClosed (id : Nat)
  | buildFromTemplate
  | setApplicationMenu
  | send (id : Nat) (channel : Channel)
  | minimize (id : Nat)
  | maximize (id : Nat)
  | unmaximize (id : Nat)
  | close (id : Nat)
  | showMessageBox (parent : Ref)
  | quit
  deriving DecidableEq, Repr

/-- An open native window created by `new BrowserWindow(...)`. -/
structure BrowserWindow where
  id : Nat
  width : JSNumber
  height : JSNumber
  maximized : Bool
  deriving DecidableEq, Repr

/-- Leaf items of the menu template in `createMenu`, in template order. -/
inductive MenuItem where
  | openUrl
  | forward
  | back
  | refresh
  | stop
  | exit
  | toggleMaximize
  | minimize
  | close
  | about
  deriving DecidableEq, Repr

/-- State of the main process. -/
structure Host where
  /-- the global `mainWindow` -/
  mainWindow : Ref
  /-- windows that are open (created and not yet destroyed) -/
  windows : List BrowserWindow
  /-- identity given to the next `new BrowserWindow` -/
  nextId : Nat
  /-- the application menu installed by `Menu.setApplicationMenu`, if any -/
  menu : Option (List MenuItem)
  /-- whether `process.platform` is the string `darwin` -/
  darwin : Bool
  /-- every Electron call made so far, oldest first -/
  effects : List Effect
  deriving DecidableEq, Repr

/-- State when the script has been loaded and no event has been delivered yet:
`let mainWindow;` leaves the global `undefined`. -/
def Host.init (darwin : Bool) : Host :=
  { mainWindow := .undefined, windows := [], nextId := 0, menu := none,
    darwin := darwin, effects := [] }

/-- Record one Electron call. -/
def Host.emit (s : Host) (e : Effect) : Host :=
  { s with effects := s.effects ++ [e] }

/-- Whether a window with this identity is open. -/
def Host.isOpen (s : Host) (id : Nat) : Bool :=
  s.windows.any (fun w => w.id == id)

/-- `isMaximized()` on the window with this identity. -/
def Host.isMaximized (s : Host) (id : Nat) : Bool :=
  match s.windows.find? (fun w => w.id == id) with
  | some w => w.maximized
  | none => false

/-- `maximize()` (`b = true`) or `unmaximize()` (`b = false`) on a window. -/
def Host.setMaximized (s : Host) (id : Nat) (b : Bool) : Host :=
  { s with
    windows := s.windows.map (fun w => if w.id = id then { w with maximized := b } else w)
    effects := s.effects ++ [if b then Effect.maximize id else Effect.unmaximize id] }

/-- Evaluation of a member access `mainWindow.m(...)`: a `TypeError` when the global
is `undefined` or `null` or the window object has been destroyed, otherwise the
method body applied to the window identity. -/
def onMainWindow (s : Host) (f : Nat → Host) : Except JSError Host :=
  match s.mainWindow with
  | .undefined => .error (.typeError "Cannot read properties of undefined")
  | .null => .error (.typeError "Cannot read properties of null")
  | .window id =>
    if s.isOpen id then .ok (f id) else .error (.typeError "Object has been destroyed")

/-! ## `createMenu` and the menu click handlers -/

/-- The leaves of `template`, in order. -/
def menuTemplate : List MenuItem :=
  [.openUrl, .forward, .back, .refresh, .stop, .exit, .toggleMaximize, .minimize, .close, .about]

/-- Function `createMenu`. -/
def createMenu (s : Host) : Host :=
  let s1 := s.emit .buildFromTemplate
  { s1.emit .setApplicationMenu with menu := some menuTemplate }

/-- The body of the maximize toggle, shared verbatim by the F11 item and the
`window-maximize` handler. -/
def toggle (s : Host) (id : Nat) : Host :=
  if s.isMaximized id then s.setMaximized id false else s.setMaximized id true

/-- The `click()` function of each menu item. -/
def click (item : MenuItem) (s : Host) : Except JSError Host :=
  match item with
  | .openUrl =>
    let s1 := s.emit (.consoleLog .ctrlOPressed)
    onMainWindow s1 (fun id => s1.emit (.send id .showUrlDialog))
  | .forward => onMainWindow s (fun id => s.emit (.send id .goForward))
  | .back => onMainWindow s (fun id => s.emit (.send id .goBack))
  | .refresh => onMainWindow s (fun id => s.emit (.send id .reload))
  | .stop => onMainWindow s (fun id => s.emit (.send id .stopLoading))
  | .exit => .ok (s.emit .quit)
  | .toggleMaximize => onMainWindow s (fun id => toggle s id)
  | .minimize => onMainWindow s (fun id => s.emit (.minimize id))
  | .close => onMainWindow s (fun id => s.emit (.close id))
  | .about => .ok (s.emit (.showMessageBox s.mainWindow))

/-! ## `createWindow` -/

/-- Function `createWindow`; `read` is the outcome of the `readFileSync` call. -/
def createWindow (read : Except JSError (List Char)) (s : Host) : Except JSError Host :=
  match loadSize read with
  | .error e => .error e
  | .ok (size, logged) =>
    let s0 := if logged then s.emit (.consoleLog .usingDefaultSize) else s
    let id := s0.nextId
    let s1 : Host :=
      { s0 with
        mainWindow := .window id
        windows := s0.windows ++ [⟨id, size.windowWidth, size.windowHeight, false⟩]
        nextId := id + 1
        effects := s0.effects ++ [.newBrowserWindow id size.windowWidth size.windowHeight] }
    let s2 := s1.emit (.loadURL id)
    let s3 := s2.emit (.onWebContents id .certificateError)
    let s4 := s3.emit (.onWebContents id .selectClientCertificate)
    let s5 := s4.emit (.onWebContents id .securityPolicyViolation)
    let s6 := s5.emit (.onClosed id)
    .ok (createMenu s6)

/-! ## Application and channel handlers -/

/-- Events delivered to the listeners registered with `app.on` and to the
`closed` listener that `createWindow` registers on each window. -/
inductive AppEvent where
  | ready (read : Except JSError (List Char))
  | windowAllClosed
  | activate (read : Except JSError (List Char))
  | closed (id : Nat)

/-- Whether the event is `ready`. -/
def AppEvent.isReady : AppEvent → Bool
  | .ready _ => true
  | _ => false

/-- One listener invocation. A `closed` event is only delivered for a window that
is open; the window is then gone and the listener clears the global. -/
def appStep (s : Host) (ev : AppEvent) : Except JSError Host :=
  match ev with
  | .ready read => createWindow read s
  | .windowAllClosed => if !s.darwin then .ok (s.emit .quit) else .ok s
  | .activate read => if s.mainWindow = .null then createWindow read s else .ok s
  | .closed id =>
    if s.isOpen id then
      .ok { s with windows := s.windows.filter (fun w => w.id != id), mainWindow := .null }
    else .ok s

/-- Deliver a sequence of events, stopping at the first uncaught exception. -/
def runApp (s : Host) : List AppEvent → Except JSError Host
  | [] => .ok s
  | ev :: evs =>
    match appStep s ev with
    | .ok s1 => runApp s1 evs
    | .error e => .error e

/-- The three surface-to-host messages handled with `ipcMain.on`. -/
inductive IpcMessage where
  | windowMinimize
  | windowMaximize
  | windowClose
  deriving DecidableEq, Repr

/-- The `ipcMain.on` listeners. -/
def ipcHandler (msg : IpcMessage) (s : Host) : Except JSError Host :=
  match msg with
  | .windowMinimize =>
    if s.mainWindow.truthy then onMainWindow s (fun id => s.emit (.minimize id)) else .ok s
  | .windowMaximize =>
    if s.mainWindow.truthy then onMainWindow s (fun id => toggle s id) else .ok s
  | .windowClose =>
    if s.mainWindow.truthy then onMainWindow s (fun id => s.emit (.close id)) else .ok s

/-! ## Auxiliary definitions used to state the properties -/

/-- The `(width, height)` arguments of every `new BrowserWindow` call in a trace. -/
def newWindowArgs : List Effect → List (JSNumber × JSNumber)
  | [] => []
  | .newBrowserWindow _ w h :: es => (w, h) :: newWindowArgs es
  | _ :: es => newWindowArgs es

/-- Whether, in a trace, all three hooks of window `id` are registered at earlier
positions than the `loadURL` call on that window. -/
def hooksBeforeLoad (es : List Effect) (id : Nat) : Bool :=
  decide (es.indexOf (.onWebContents id .certificateError) < es.indexOf (.loadURL id)) &&
  decide (es.indexOf (.onWebContents id .selectClientCertificate) < es.indexOf (.loadURL id)) &&
  decide (es.indexOf (.onWebContents id .securityPolicyViolation) < es.indexOf (.loadURL id))

/-- The nine menu items whose handlers use the window: five navigation commands,
maximize toggle, minimize, close, About. -/
def windowMenuItems : List MenuItem :=
  [.openUrl, .forward, .back, .refresh, .stop, .toggleMaximize, .minimize, .close, .about]

/-- The state after the window opened at start-up has been closed on a platform
that keeps the process alive: `ready`, then `closed` for window 0. -/
def afterClose : Except JSError Host :=
  runApp (Host.init true) [.ready (.error (.ioError "ENOENT")), .closed 0]

/-- A state with one open, not maximized window held by `mainWindow`. -/
def oneWindow : Host :=
  { mainWindow := .window 0, windows := [⟨0, .finite 1200, .finite 800, false⟩], nextId := 1,
    menu := some menuTemplate, darwin := false, effects := [] }

/-! ### Shapes of `size.config` files -/

/-- Whitespace allowed inside a line: characters removed by `trim`, other than the
line feed. -/
def inlineSpace (w : List Char) : Bool :=
  w.all (fun c => isJSWhiteSpace c && c != '\n')

/-- One line of a configuration file, by shape. -/
inductive ConfigLine where
  /-- a line of whitespace only (possibly empty) -/
  | blank (ws : List Char)
  /-- a line that begins with `#` -/
  | comment (body : List Char)
  /-- `windowWidth=value`, with optional whitespace before and after the key -/
  | width (pre mid value : List Char)
  /-- `windowHeight=value`, with optional whitespace before and after the key -/
  | height (pre mid value : List Char)
  /-- a line without any `=` -/
  | noEquals (text : List Char)
  deriving DecidableEq, Repr

/-- The characters of a line. -/
def ConfigLine.render : ConfigLine → List Char
  | .blank ws => ws
  | .comment body => '#' :: body
  | .width pre mid value => pre ++ keyWidth ++ mid ++ '=' :: value
  | .height pre mid value => pre ++ keyHeight ++ mid ++ '=' :: value
  | .noEquals text => text

/-- Side conditions that make `render` produce one line of the stated shape. -/
def ConfigLine.wellFormed : ConfigLine → Bool
  | .blank ws => inlineSpace ws
  | .comment body => !body.contains '\n'
  | .width pre mid value =>
    inlineSpace pre && inlineSpace mid && !value.contains '\n' && !value.contains '='
  | .height pre mid value =>
    inlineSpace pre && inlineSpace mid && !value.contains '\n' && !value.contains '='
  | .noEquals text => !text.contains '\n' && !text.contains '='

/-- The text of a file: its lines joined by line feeds. -/
def renderConfig : List ConfigLine → List Char
  | [] => []
  | l :: ls =>
    match ls with
    | [] => l.render
    | _ :: _ => l.render ++ '\n' :: renderConfig ls

/-- The value text of a `windowWidth` line. -/
def ConfigLine.widthValue? : ConfigLine → Option (List Char)
  | .width _ _ value => some value
  | _ => none

/-- The value text of a `windowHeight` line. -/
def ConfigLine.heightValue? : ConfigLine → Option (List Char)
  | .height _ _ value => some value
  | _ => none

/-- The value texts of the `windowWidth` lines, in file order. -/
def widthValues (ls : List ConfigLine) : List (List Char) :=
  ls.filterMap ConfigLine.widthValue?

/-- The value texts of the `windowHeight` lines, in file order. -/
def heightValues (ls : List ConfigLine) : List (List Char) :=
  ls.filterMap ConfigLine.heightValue?

/-- The dimension selected by the value texts given for one key: the default when
there is none, otherwise `parseInt(v) || default` for the last one. -/
def fieldValue (dflt : JSNumber) (values : List (List Char)) : JSNumber :=
  match values.getLast? with
  | none => dflt
  | some v => jsOr (parseInt (trim v)) dflt

/-- A Number strictly greater than zero (a positive integer or `Infinity`). -/
def JSNumber.isPositive : JSNumber → Bool
  | .finite z => decide (0 < z)
  | .posInf => true
  | _ => false

/-! ### Reading a file line by line -/

/-- The `key=value` reading of one line. A line that is blank (whitespace only),
that begins with `#`, or that does not contain exactly one `=` sets nothing;
otherwise the line sets the key found by trimming the text before the `=`, and its
value is the text after the `=`. -/
def lineSetting (line : List Char) : Option (List Char × List Char) :=
  if line.all isJSWhiteSpace || startsWith line '#' || line.count '=' != 1 then none
  else some (trim (line.takeWhile (fun c => c != '=')),
    (line.dropWhile (fun c => c != '=')).drop 1)

/-- The value of a line if the line sets `key`. -/
def valueFor (key : List Char) (line : List Char) : Option (List Char) :=
  match lineSetting line with
  | some (k, v) => if k = key then some v else none
  | none => none

/-- The values of the lines of a text that set `key`, in file order. -/
def valuesFor (key : List Char) (t : List Char) : List (List Char) :=
  (split '\n' t).filterMap (valueFor key)

/-- The trimmed value of the last line of a text that sets `key`, if any. -/
def lastValue (key : List Char) (t : List Char) : Option (List Char) :=
  (valuesFor key t).getLast?.map trim

/-- What holds of a dimension `w` with default `d`, given the trimmed value `last`
of the last line that sets its key:
* `w` is never `NaN` and never zero;
* with no such line, and with the value `0`, `w` is the default;
* if the value does not begin with `-`, `w` is strictly greater than 0;
* if moreover the value has at most 255 characters, `w` is an integer;
* the value `-n`, for a numeral `n` with `0 < n < 2^53`, gives the integer `-n`. -/
def DimensionSpec (d : JSNumber) (last : Option (List Char)) (w : JSNumber) : Prop :=
  w.truthy = true ∧
  (last = none → w = d) ∧
  (last = some ['0'] → w = d) ∧
  (∀ v, last = some v → startsWith v '-' = false → w.isPositive = true) ∧
  (∀ v, last = some v → startsWith v '-' = false → v.length ≤ 255 →
    w.isPositiveInteger = true) ∧
  (∀ n : Nat, last = some ('-' :: Nat.toDigits 10 n) → 0 < n → n < 2 ^ 53 →
    w = .finite (-(n : Int)))

/-- Invariant before `ready` has been delivered: nothing is open and the global
has never been assigned. -/
def NotStarted (s : Host) : Prop :=
  s.windows = [] ∧ s.mainWindow = .undefined

/-- Invariant after `ready`: either nothing is open and the global is null, or one
window is open and the global refers to it. -/
def Singleton (s : Host) : Prop :=
  (s.windows = [] ∧ s.mainWindow = .null) ∨
  (∃ w, s.windows = [w] ∧ s.mainWindow = .window w.id)

end SaWebcClient

open SaWebcClient

/-! ## The size-loading step: failure handling -/

/-- C2: whatever `readFileSync` does (throws, or returns any text), the size-loading
step returns normally, and when the read throws the dimensions are 1200 by 800 (and
the fallback message is logged). -/
theorem loadSize_total_and_default_on_read_failure :
    (∀ read : Except JSError (List Char), ∃ r, loadSize read = .ok r) ∧
    (∀ e : JSError, loadSize (.error e) = .ok (⟨.finite 1200, .finite 800⟩, true)) := by
  refine ⟨?_, fun e => rfl⟩
  intro read
  cases read with
  | error e => exact ⟨_, rfl⟩
  | ok t => exact ⟨_, rfl⟩

/-! ## Menu handlers and channel handlers with no window -/

/-- C5 (code defect): with `mainWindow` null after the window was closed, the click
handlers of the five navigation items, the maximize toggle, minimize and close all
throw a `TypeError`, and About still opens its dialog; none of them is a guarded
no-op, unlike the `ipcMain` handlers for the same operations. -/
theorem menu_click_without_window_raises :
    (∃ s, afterClose = .ok s ∧ s.mainWindow = .null ∧ s.windows = [] ∧
      (∀ item ∈ [MenuItem.openUrl, .forward, .back, .refresh, .stop, .toggleMaximize,
          .minimize, .close],
        click item s = .error (.typeError "Cannot read properties of null")) ∧
      click .about s = .ok (s.emit (.showMessageBox .null)) ∧
      s.emit (.showMessageBox .null) ≠ s ∧
      (∀ msg, ipcHandler msg s = .ok s)) := by
  refine ⟨_, rfl, rfl, rfl, ?_, rfl, ?_, ?_⟩
  · intro item hitem
    simp only [List.mem_cons, List.mem_singleton, List.not_mem_nil, or_false] at hitem
    rcases hitem with h | h | h | h | h | h | h | h <;> subst h <;> rfl
  · decide
  · intro msg
    cases msg <;> rfl

/-- C6: when `mainWindow` is null or was never assigned, each of the three
`ipcMain` handlers returns normally and leaves the whole host state, including the
record of performed window operations, unchanged. -/
theorem ipcHandler_absent_window_noop (msg : IpcMessage) (s : Host)
    (h : s.mainWindow = .null ∨ s.mainWindow = .undefined) :
    ipcHandler msg s = .ok s := by
  rcases h with h | h <;> cases msg <;> simp [ipcHandler, h, Ref.truthy]

/-- Concrete instance: before any window was created. -/
theorem ipcHandler_absent_window_noop_witness :
    ((Host.init false).mainWindow = .null ∨ (Host.init false).mainWindow = .undefined) ∧
    ipcHandler .windowClose (Host.init false) = .ok (Host.init false) :=
  ⟨Or.inr rfl, ipcHandler_absent_window_noop .windowClose (Host.init false) (Or.inr rfl)⟩

/-! ## Order of effects in `createWindow` -/

/-- C7, refuted: in the effects of one `createWindow` call (here: at start-up with
no config file) the hooks are not registered before `loadURL`. -/
theorem createWindow_hooks_not_before_loadURL :
    ∃ s, createWindow (.error (.ioError "ENOENT")) (Host.init false) = .ok s ∧
      s.mainWindow = .window 0 ∧ hooksBeforeLoad s.effects 0 = false :=
  ⟨_, rfl, rfl, by decide⟩

/-- C7, amended: one `createWindow` call performs, after the optional fallback log
line, exactly this sequence: construct the window, call `loadURL` on it, register
the `certificate-error`, `select-client-certificate` and
`security-policy-violation` hooks, register the `closed` listener, build and
install the menu. The three hooks are thus registered after `loadURL`, within the
same call. -/
theorem createWindow_effect_order (read : Except JSError (List Char)) (s : Host) :
    ∃ s1 pre w h, createWindow read s = .ok s1 ∧
      (pre = [] ∨ pre = [Effect.consoleLog .usingDefaultSize]) ∧
      s1.effects = s.effects ++ pre ++
        [.newBrowserWindow s.nextId w h, .loadURL s.nextId,
         .onWebContents s.nextId .certificateError,
         .onWebContents s.nextId .selectClientCertificate,
         .onWebContents s.nextId .securityPolicyViolation,
         .onClosed s.nextId, .buildFromTemplate, .setApplicationMenu] := by
  cases read with
  | error e =>
    exact ⟨_, [Effect.consoleLog .usingDefaultSize], defaultSize.windowWidth,
      defaultSize.windowHeight, rfl, Or.inr rfl, by simp [createMenu, Host.emit]⟩
  | ok t =>
    exact ⟨_, [], (parseSizeConfig t).windowWidth, (parseSizeConfig t).windowHeight, rfl,
      Or.inl rfl, by simp [createMenu, Host.emit]⟩

/-! ## The `activate` listener -/

/-- C9, refuted: before any window was created (`mainWindow` still undefined, no
window open) an `activate` event creates nothing. -/
theorem activate_before_first_window_creates_nothing :
    (Host.init true).windows = [] ∧
    appStep (Host.init true) (.activate (.error (.ioError "ENOENT"))) = .ok (Host.init true) :=
  ⟨rfl, rfl⟩

/-- C9, amended: `activate` creates the window exactly when `mainWindow` is null,
that is after a window was closed: one more window is open afterwards and
`mainWindow` refers to it. When `mainWindow` is undefined (no window was ever
created) or refers to a window, `activate` changes nothing. -/
theorem activate_creates_iff_null (read : Except JSError (List Char)) (s : Host) :
    (∃ s1 w h, appStep { s with mainWindow := .null } (.activate read) = .ok s1 ∧
      s1.windows = s.windows ++ [⟨s.nextId, w, h, false⟩] ∧
      s1.mainWindow = .window s.nextId) ∧
    appStep { s with mainWindow := .undefined } (.activate read)
      = .ok { s with mainWindow := .undefined } ∧
    (∀ id, appStep { s with mainWindow := .window id } (.activate read)
      = .ok { s with mainWindow := .window id }) := by
  refine ⟨?_, rfl, fun id => rfl⟩
  cases read with
  | error e => exact ⟨_, _, _, rfl, rfl, rfl⟩
  | ok t => exact ⟨_, _, _, rfl, rfl, rfl⟩

/-! ## The maximize toggle -/

theorem Host.isOpen_setMaximized (s : Host) (id k : Nat) (b : Bool) :
    (s.setMaximized id b).isOpen k = s.isOpen k := by
  unfold Host.setMaximized Host.isOpen
  simp only [List.any_map]
  congr 1
  funext w
  by_cases hw : w.id = id <;> simp [hw]

theorem Host.isMaximized_setMaximized (s : Host) (id : Nat) (b : Bool)
    (ho : s.isOpen id = true) : (s.setMaximized id b).isMaximized id = b := by
  unfold Host.setMaximized Host.isMaximized
  unfold Host.isOpen at ho
  simp only
  generalize s.windows = ws at ho
  induction ws with
  | nil => simp at ho
  | cons w ws ih =>
    rw [List.map_cons, List.find?_cons]
    by_cases hw : w.id = id
    · simp [hw]
    · have hb : ((if w.id = id then { w with maximized := b } else w).id == id) = false := by
        simp [hw]
      have ho1 : ws.any (fun w => w.id == id) = true := by
        simpa [List.any_cons, hw] using ho
      rw [hb]
      exact ih ho1

theorem toggle_spec (s : Host) (id : Nat) (ho : s.isOpen id = true) :
    (toggle s id).mainWindow = s.mainWindow ∧ (toggle s id).isOpen id = true ∧
    (toggle s id).isMaximized id = !s.isMaximized id := by
  unfold toggle
  cases hm : s.isMaximized id
  · simp only [Bool.false_eq_true, if_false]
    exact ⟨rfl, by rw [Host.isOpen_setMaximized]; exact ho,
      by rw [Host.isMaximized_setMaximized s id true ho]; rfl⟩
  · simp only [if_true]
    exact ⟨rfl, by rw [Host.isOpen_setMaximized]; exact ho,
      by rw [Host.isMaximized_setMaximized s id false ho]; rfl⟩

theorem onMainWindow_toggle (s : Host) (id : Nat) (hm : s.mainWindow = .window id)
    (ho : s.isOpen id = true) : onMainWindow s (fun k => toggle s k) = .ok (toggle s id) := by
  simp [onMainWindow, hm, ho]

/-- C10: with an open window held by `mainWindow`, whatever its maximize state,
running the maximize toggle twice (the `window-maximize` handler, and equally the
F11 menu item) succeeds both times, flips the state the first time and brings it
back to the original the second time; `maximize()` sets the state to true and
`unmaximize()` sets it to false. -/
theorem toggleMaximize_twice_restores (s : Host) (id : Nat)
    (hm : s.mainWindow = .window id) (ho : s.isOpen id = true) :
    (∃ s1 s2, ipcHandler .windowMaximize s = .ok s1 ∧ ipcHandler .windowMaximize s1 = .ok s2 ∧
      s1.isMaximized id = (!s.isMaximized id) ∧ s2.isMaximized id = s.isMaximized id) ∧
    (∃ s1 s2, click .toggleMaximize s = .ok s1 ∧ click .toggleMaximize s1 = .ok s2 ∧
      s1.isMaximized id = (!s.isMaximized id) ∧ s2.isMaximized id = s.isMaximized id) ∧
    (s.setMaximized id true).isMaximized id = true ∧
    (s.setMaximized id false).isMaximized id = false := by
  obtain ⟨hm1, ho1, hx1⟩ := toggle_spec s id ho
  obtain ⟨_, _, hx2⟩ := toggle_spec (toggle s id) id ho1
  have hback : (toggle (toggle s id) id).isMaximized id = s.isMaximized id := by
    rw [hx2, hx1, Bool.not_not]
  have e1 := onMainWindow_toggle s id hm ho
  have e2 := onMainWindow_toggle (toggle s id) id (hm1.trans hm) ho1
  refine ⟨⟨toggle s id, toggle (toggle s id) id, ?_, ?_, hx1, hback⟩,
    ⟨toggle s id, toggle (toggle s id) id, ?_, ?_, hx1, hback⟩,
    Host.isMaximized_setMaximized s id true ho, Host.isMaximized_setMaximized s id false ho⟩
  · simp [ipcHandler, hm, Ref.truthy, e1]
  · simp [ipcHandler, hm1, hm, Ref.truthy, e2]
  · simpa [click] using e1
  · simpa [click] using e2

/-- Concrete instance: the toggle run twice on a state with one open window. -/
theorem toggleMaximize_twice_restores_witness :
    (oneWindow.mainWindow = .window 0 ∧ oneWindow.isOpen 0 = true) ∧
    ((∃ s1 s2, ipcHandler .windowMaximize oneWindow = .ok s1 ∧
        ipcHandler .windowMaximize s1 = .ok s2 ∧
        s1.isMaximized 0 = (!oneWindow.isMaximized 0) ∧
        s2.isMaximized 0 = oneWindow.isMaximized 0) ∧
      (∃ s1 s2, click .toggleMaximize oneWindow = .ok s1 ∧ click .toggleMaximize s1 = .ok s2 ∧
        s1.isMaximized 0 = (!oneWindow.isMaximized 0) ∧
        s2.isMaximized 0 = oneWindow.isMaximized 0) ∧
      (oneWindow.setMaximized 0 true).isMaximized 0 = true ∧
      (oneWindow.setMaximized 0 false).isMaximized 0 = false) :=
  ⟨⟨rfl, rfl⟩, toggleMaximize_twice_restores oneWindow 0 rfl rfl⟩

/-! ## At most one window -/

theorem createWindow_spec (read : Except JSError (List Char)) (s : Host) :
    ∃ s1 w h, createWindow read s = .ok s1 ∧
      s1.windows = s.windows ++ [⟨s.nextId, w, h, false⟩] ∧
      s1.mainWindow = .window s.nextId := by
  cases read with
  | error e => exact ⟨_, _, _, rfl, rfl, rfl⟩
  | ok t => exact ⟨_, _, _, rfl, rfl, rfl⟩

theorem appStep_ready_of_notStarted (s : Host) (read : Except JSError (List Char))
    (hs : NotStarted s) : ∃ s1, appStep s (.ready read) = .ok s1 ∧ Singleton s1 := by
  obtain ⟨s1, w, h, e, hw, hm⟩ := createWindow_spec read s
  refine ⟨s1, e, Or.inr ⟨⟨s.nextId, w, h, false⟩, ?_, hm⟩⟩
  rw [hw, hs.1]
  rfl

theorem appStep_notStarted (s : Host) (ev : AppEvent) (hs : NotStarted s)
    (hev : ev.isReady = false) : ∃ s1, appStep s ev = .ok s1 ∧ NotStarted s1 := by
  obtain ⟨hw, hm⟩ := hs
  cases ev with
  | ready read => simp [AppEvent.isReady] at hev
  | windowAllClosed =>
    cases hd : s.darwin
    · exact ⟨s.emit .quit, by simp [appStep, hd], hw, hm⟩
    · exact ⟨s, by simp [appStep, hd], hw, hm⟩
  | activate read => exact ⟨s, by simp [appStep, hm], hw, hm⟩
  | closed id => exact ⟨s, by simp [appStep, Host.isOpen, hw], hw, hm⟩

theorem appStep_singleton (s : Host) (ev : AppEvent) (hs : Singleton s)
    (hev : ev.isReady = false) : ∃ s1, appStep s ev = .ok s1 ∧ Singleton s1 := by
  cases ev with
  | ready read => simp [AppEvent.isReady] at hev
  | windowAllClosed =>
    cases hd : s.darwin
    · exact ⟨s.emit .quit, by simp [appStep, hd], hs⟩
    · exact ⟨s, by simp [appStep, hd], hs⟩
  | activate read =>
    rcases hs with ⟨hw, hm⟩ | ⟨w, hw, hm⟩
    · obtain ⟨s1, w, h, e, hw1, hm1⟩ := createWindow_spec read s
      refine ⟨s1, by simp [appStep, hm, e], Or.inr ⟨⟨s.nextId, w, h, false⟩, ?_, hm1⟩⟩
      rw [hw1, hw]
      rfl
    · exact ⟨s, by simp [appStep, hm], Or.inr ⟨w, hw, hm⟩⟩
  | closed id =>
    rcases hs with ⟨hw, hm⟩ | ⟨w, hw, hm⟩
    · exact ⟨s, by simp [appStep, Host.isOpen, hw], Or.inl ⟨hw, hm⟩⟩
    · by_cases hid : w.id = id
      · refine ⟨{ s with windows := s.windows.filter (fun w => w.id != id), mainWindow := .null },
          by simp [appStep, Host.isOpen, hw, hid], Or.inl ⟨?_, rfl⟩⟩
        simp [hw, hid]
      · exact ⟨s, by simp [appStep, Host.isOpen, hw, hid], Or.inr ⟨w, hw, hm⟩⟩

theorem runApp_singleton (evs : List AppEvent) :
    ∀ s : Host, Singleton s → evs.countP AppEvent.isReady = 0 →
      ∃ s1, runApp s evs = .ok s1 ∧ Singleton s1 := by
  induction evs with
  | nil => exact fun s hs _ => ⟨s, rfl, hs⟩
  | cons ev evs ih =>
    intro s hs hc
    have hev : ev.isReady = false := by
      cases h : ev.isReady
      · rfl
      · simp [List.countP_cons, h] at hc
    have hc1 : evs.countP AppEvent.isReady = 0 := by
      simpa [List.countP_cons, hev] using hc
    obtain ⟨s1, e1, hs1⟩ := appStep_singleton s ev hs hev
    obtain ⟨s2, e2, hs2⟩ := ih s1 hs1 hc1
    exact ⟨s2, by simp [runApp, e1, e2], hs2⟩

theorem runApp_notStarted (evs : List AppEvent) :
    ∀ s : Host, NotStarted s → evs.countP AppEvent.isReady ≤ 1 →
      ∃ s1, runApp s evs = .ok s1 ∧ (NotStarted s1 ∨ Singleton s1) := by
  induction evs with
  | nil => exact fun s hs _ => ⟨s, rfl, Or.inl hs⟩
  | cons ev evs ih =>
    intro s hs hc
    cases hev : ev.isReady
    · have hc1 : evs.countP AppEvent.isReady ≤ 1 := by
        simpa [List.countP_cons, hev] using hc
      obtain ⟨s1, e1, hs1⟩ := appStep_notStarted s ev hs hev
      obtain ⟨s2, e2, hs2⟩ := ih s1 hs1 hc1
      exact ⟨s2, by simp [runApp, e1, e2], hs2⟩
    · have hc1 : evs.countP AppEvent.isReady = 0 := by
        simpa [List.countP_cons, hev] using hc
      cases ev with
      | ready read =>
        obtain ⟨s1, e1, hs1⟩ := appStep_ready_of_notStarted s read hs
        obtain ⟨s2, e2, hs2⟩ := runApp_singleton evs s1 hs1 hc1
        exact ⟨s2, by simp [runApp, e1, e2], Or.inr hs2⟩
      | windowAllClosed => simp [AppEvent.isReady] at hev
      | activate read => simp [AppEvent.isReady] at hev
      | closed id => simp [AppEvent.isReady] at hev

/-- C8: from process start, after any sequence of `ready`, `activate`,
`window-all-closed` and window `closed` events in any order that contains at most
one `ready`, no listener has thrown and at most one window is open; when one is
open, `mainWindow` refers to it. Since every `createWindow` call opens one more
window, it is never invoked while an earlier window is still open. -/
theorem at_most_one_window (darwin : Bool) (evs : List AppEvent)
    (h : evs.countP AppEvent.isReady ≤ 1) :
    ∃ s, runApp (Host.init darwin) evs = .ok s ∧ s.windows.length ≤ 1 ∧
      (∀ w ∈ s.windows, s.mainWindow = .window w.id) := by
  obtain ⟨s, e, hs⟩ := runApp_notStarted evs (Host.init darwin) ⟨rfl, rfl⟩ h
  refine ⟨s, e, ?_⟩
  rcases hs with ⟨hw, _⟩ | ⟨hw, _⟩ | ⟨w, hw, hm⟩
  · simp [hw]
  · simp [hw]
  · simp [hw, hm]

/-- Concrete instance: activate, ready, activate, close, activate,
activate on a platform that keeps the process alive. -/
theorem at_most_one_window_witness :
    ([AppEvent.activate (.error (.ioError "ENOENT")), .ready (.error (.ioError "ENOENT")),
        .activate (.error (.ioError "ENOENT")), .closed 0, .windowAllClosed,
        .activate (.error (.ioError "ENOENT")),
        .activate (.error (.ioError "ENOENT"))].countP AppEvent.isReady ≤ 1) ∧
    ∃ s, runApp (Host.init true)
        [AppEvent.activate (.error (.ioError "ENOENT")), .ready (.error (.ioError "ENOENT")),
          .activate (.error (.ioError "ENOENT")), .closed 0, .windowAllClosed,
          .activate (.error (.ioError "ENOENT")),
          .activate (.error (.ioError "ENOENT"))] = .ok s ∧
      s.windows.length ≤ 1 ∧ (∀ w ∈ s.windows, s.mainWindow = .window w.id) :=
  ⟨by decide, at_most_one_window true _ (by decide)⟩

/-! ## Facts about `split` -/

theorem split_ne_nil (sep : Char) (s : List Char) : split sep s ≠ [] := by
  cases s with
  | nil => simp [split]
  | cons c cs =>
    unfold split
    by_cases h : c = sep
    · simp [h]
    · simp only [h, if_false]
      cases split sep cs <;> simp

theorem split_cons_sep (sep : Char) (s : List Char) :
    split sep (sep :: s) = [] :: split sep s := by
  simp [split]

theorem split_cons_ne (sep c : Char) (s : List Char) (h : c ≠ sep) :
    ∃ p ps, split sep s = p :: ps ∧ split sep (c :: s) = (c :: p) :: ps := by
  cases hs : split sep s with
  | nil => exact absurd hs (split_ne_nil sep s)
  | cons p ps => exact ⟨p, ps, rfl, by simp [split, h, hs]⟩

theorem split_of_not_mem (sep : Char) (s : List Char) (h : sep ∉ s) : split sep s = [s] := by
  induction s with
  | nil => rfl
  | cons c cs ih =>
    have hc : c ≠ sep := fun e => h (by simp [e])
    have hcs : sep ∉ cs := fun e => h (List.mem_cons_of_mem _ e)
    simp [split, hc, ih hcs]

theorem split_append_sep (sep : Char) (a b : List Char) :
    split sep (a ++ sep :: b) = split sep a ++ split sep b := by
  induction a with
  | nil => simp [split]
  | cons c cs ih =>
    by_cases hc : c = sep
    · subst hc
      simp [split, ih]
    · obtain ⟨p, ps, hp, _⟩ := split_cons_ne sep c cs hc
      simp [split, hc, ih, hp]

theorem split_snoc (sep : Char) (u : List Char) :
    ∃ front final, split sep u = front ++ [final] ∧
      ∀ t, sep ∉ t → split sep (u ++ t) = front ++ [final ++ t] := by
  induction u with
  | nil => exact ⟨[], [], rfl, fun t ht => by simpa using split_of_not_mem sep t ht⟩
  | cons c cs ih =>
    obtain ⟨front, final, h1, h2⟩ := ih
    by_cases hc : c = sep
    · subst hc
      exact ⟨[] :: front, final, by simp [split, h1], fun t ht => by simp [split, h2 t ht]⟩
    · cases front with
      | nil =>
        exact ⟨[], c :: final, by simp [split, hc, h1], fun t ht => by
          have := h2 t ht
          simp only [List.nil_append] at this
          simp [split, hc, this]⟩
      | cons p ps =>
        exact ⟨(c :: p) :: ps, final, by simp [split, hc, h1], fun t ht => by
          have := h2 t ht
          simp only [List.cons_append] at this
          simp [split, hc, this]⟩

theorem mem_of_mem_split (sep : Char) (s : List Char) :
    ∀ p ∈ split sep s, ∀ c ∈ p, c ∈ s := by
  induction s with
  | nil =>
    intro p hp c hc
    simp [split] at hp
    subst hp
    exact hc
  | cons d ds ih =>
    intro p hp c hc
    by_cases hd : d = sep
    · subst hd
      rw [split_cons_sep] at hp
      rcases List.mem_cons.1 hp with h | h
      · subst h
        simp at hc
      · exact List.mem_cons_of_mem _ (ih p h c hc)
    · obtain ⟨q, qs, hq, hq2⟩ := split_cons_ne sep d ds hd
      rw [hq2] at hp
      rcases List.mem_cons.1 hp with h | h
      · subst h
        rcases List.mem_cons.1 hc with h1 | h1
        · simp [h1]
        · exact List.mem_cons_of_mem _ (ih q (by simp [hq]) c h1)
      · exact List.mem_cons_of_mem _ (ih p (by simp [hq, h]) c hc)

/-! ## Facts about `trim` -/

theorem trimStart_cons_ws (c : Char) (s : List Char) (h : isJSWhiteSpace c = true) :
    trimStart (c :: s) = trimStart s := by
  simp [trimStart, List.dropWhile, h]

theorem trimStart_cons_of_not_ws (c : Char) (s : List Char) (h : isJSWhiteSpace c = false) :
    trimStart (c :: s) = c :: s := by
  simp [trimStart, List.dropWhile, h]

theorem dropWhile_snoc_of_not (p : Char → Bool) (l : List Char) (x : Char) (h : p x = false) :
    (l ++ [x]).dropWhile p = l.dropWhile p ++ [x] := by
  induction l with
  | nil => simp [List.dropWhile, h]
  | cons c cs ih =>
    cases hc : p c
    · simp [List.dropWhile, hc]
    · simp [List.dropWhile, hc, ih]

theorem trimEnd_cons_of_not_ws (c : Char) (s : List Char) (h : isJSWhiteSpace c = false) :
    trimEnd (c :: s) = c :: trimEnd s := by
  simp [trimEnd, dropWhile_snoc_of_not _ _ _ h]

theorem trimEnd_snoc_ws (c : Char) (s : List Char) (h : isJSWhiteSpace c = true) :
    trimEnd (s ++ [c]) = trimEnd s := by
  simp [trimEnd, List.dropWhile, h]

theorem trimEnd_nil : trimEnd [] = [] := rfl

theorem trim_cons_ws (c : Char) (s : List Char) (h : isJSWhiteSpace c = true) :
    trim (c :: s) = trim s := by
  simp [trim, trimStart_cons_ws c s h]

theorem trim_cons_of_not_ws (c : Char) (s : List Char) (h : isJSWhiteSpace c = false) :
    trim (c :: s) = c :: trimEnd s := by
  simp [trim, trimStart_cons_of_not_ws c s h, trimEnd_cons_of_not_ws c s h]

theorem trim_snoc_ws (c : Char) (s : List Char) (h : isJSWhiteSpace c = true) :
    trim (s ++ [c]) = trim s := by
  induction s with
  | nil => simp [trim, trimStart, trimEnd, List.dropWhile, h]
  | cons d ds ih =>
    cases hd : isJSWhiteSpace d
    · rw [List.cons_append, trim_cons_of_not_ws _ _ hd, trim_cons_of_not_ws _ _ hd,
        trimEnd_snoc_ws c ds h]
    · rw [List.cons_append, trim_cons_ws _ _ hd, trim_cons_ws _ _ hd, ih]

theorem trim_append_ws (w : List Char) (hw : ∀ c ∈ w, isJSWhiteSpace c = true) :
    ∀ u : List Char, trim (u ++ w) = trim u := by
  induction w with
  | nil => intro u; simp
  | cons c cs ih =>
    intro u
    have h1 : u ++ c :: cs = (u ++ [c]) ++ cs := by simp
    rw [h1, ih (fun d hd => hw d (List.mem_cons_of_mem _ hd)), trim_snoc_ws c u (hw c (by simp))]

theorem trim_ws_append (w : List Char) (hw : ∀ c ∈ w, isJSWhiteSpace c = true)
    (u : List Char) : trim (w ++ u) = trim u := by
  induction w with
  | nil => simp
  | cons c cs ih =>
    rw [List.cons_append, trim_cons_ws c _ (hw c (by simp)),
      ih (fun d hd => hw d (List.mem_cons_of_mem _ hd))]

theorem trim_all_ws (w : List Char) (hw : ∀ c ∈ w, isJSWhiteSpace c = true) : trim w = [] := by
  have := trim_ws_append w hw []
  simpa using this

theorem trimEnd_eq_self_of_no_ws (s : List Char) (h : ∀ c ∈ s, isJSWhiteSpace c = false) :
    trimEnd s = s := by
  induction s with
  | nil => rfl
  | cons c cs ih =>
    rw [trimEnd_cons_of_not_ws c cs (h c (by simp)),
      ih (fun d hd => h d (List.mem_cons_of_mem _ hd))]

theorem trim_eq_self_of_no_ws (s : List Char) (h : ∀ c ∈ s, isJSWhiteSpace c = false) :
    trim s = s := by
  cases s with
  | nil => rfl
  | cons c cs =>
    rw [trim_cons_of_not_ws c cs (h c (by simp)),
      trimEnd_eq_self_of_no_ws cs (fun d hd => h d (List.mem_cons_of_mem _ hd))]

theorem mem_of_mem_trimStart (s : List Char) (c : Char) (h : c ∈ trimStart s) : c ∈ s :=
  (List.dropWhile_sublist _).subset h

theorem mem_of_mem_trimEnd (s : List Char) (c : Char) (h : c ∈ trimEnd s) : c ∈ s := by
  unfold trimEnd at h
  rw [List.mem_reverse] at h
  exact List.mem_reverse.1 ((List.dropWhile_sublist _).subset h)

theorem mem_of_mem_trim (s : List Char) (c : Char) (h : c ∈ trim s) : c ∈ s :=
  mem_of_mem_trimStart s c (mem_of_mem_trimEnd _ c h)

theorem trimEnd_append_ws (t : List Char) :
    ∃ w, (∀ c ∈ w, isJSWhiteSpace c = true) ∧ t = trimEnd t ++ w := by
  refine ⟨(t.reverse.takeWhile isJSWhiteSpace).reverse, ?_, ?_⟩
  · intro c hc
    rw [List.mem_reverse] at hc
    exact List.mem_takeWhile_imp hc
  · unfold trimEnd
    rw [← List.reverse_append, List.takeWhile_append_dropWhile, List.reverse_reverse]

/-! ## The `forEach` callback ignores surrounding whitespace -/

theorem ws_ne_eq (c : Char) (h : isJSWhiteSpace c = true) : c ≠ '=' := by
  intro e
  subst e
  revert h
  decide

theorem ws_ne_hash (c : Char) (h : isJSWhiteSpace c = true) : c ≠ '#' := by
  intro e
  subst e
  revert h
  decide

theorem applyParts_cons_ws (acc : Size) (c : Char) (q : List Char) (qs : List (List Char))
    (h : isJSWhiteSpace c = true) : applyParts acc ((c :: q) :: qs) = applyParts acc (q :: qs) := by
  cases qs with
  | nil => rfl
  | cons q1 qs1 =>
    cases qs1 with
    | nil => simp [applyParts, trim_cons_ws c q h]
    | cons q2 qs2 => rfl

theorem applyParts_hash (acc : Size) (r : List Char) (qs : List (List Char)) :
    applyParts acc (('#' :: r) :: qs) = acc := by
  cases qs with
  | nil => rfl
  | cons q1 qs1 =>
    cases qs1 with
    | nil =>
      have hk : trim ('#' :: r) = '#' :: trimEnd r := trim_cons_of_not_ws _ _ (by decide)
      simp [applyParts, hk, keyWidth, keyHeight]
    | cons q2 qs2 => rfl

theorem applyParts_snoc_ws (acc : Size) (c : Char) (front : List (List Char))
    (final : List Char) (h : isJSWhiteSpace c = true) :
    applyParts acc (front ++ [final ++ [c]]) = applyParts acc (front ++ [final]) := by
  cases front with
  | nil => rfl
  | cons p0 ps =>
    cases ps with
    | nil => simp [applyParts, trim_snoc_ws c final h]
    | cons p1 ps1 =>
      cases ps1 with
      | nil => rfl
      | cons p2 ps2 => rfl

theorem processLine_nil (acc : Size) : processLine acc [] = acc := rfl

theorem processLine_cons_ws (acc : Size) (c : Char) (p : List Char)
    (h : isJSWhiteSpace c = true) : processLine acc (c :: p) = processLine acc p := by
  obtain ⟨q, qs, hq, hq2⟩ := split_cons_ne '=' c p (ws_ne_eq c h)
  have hc : startsWith (c :: p) '#' = false := by
    simp [startsWith, ws_ne_hash c h]
  unfold processLine
  rw [trim_cons_ws c p h, hc, hq2, hq, applyParts_cons_ws acc c q qs h]
  cases p with
  | nil => simp [trim, trimStart, trimEnd]
  | cons d ds =>
    by_cases hd : d = '#'
    · subst hd
      obtain ⟨r, rs, hr, hr2⟩ := split_cons_ne '=' '#' ds (by decide)
      rw [hr2] at hq
      injection hq with hq0 hq1
      subst hq0
      simp [startsWith, applyParts_hash]
    · simp [startsWith, hd]

theorem processLine_snoc_ws (acc : Size) (c : Char) (l : List Char)
    (h : isJSWhiteSpace c = true) : processLine acc (l ++ [c]) = processLine acc l := by
  cases l with
  | nil =>
    have : trim [c] = [] := trim_all_ws [c] (by simpa using h)
    rw [processLine_nil]
    simp [processLine, this]
  | cons d ds =>
    obtain ⟨front, final, h1, h2⟩ := split_snoc '=' (d :: ds)
    have hne : '=' ∉ [c] := by
      simpa using (ws_ne_eq c h).symm
    unfold processLine
    rw [trim_snoc_ws c _ h, h2 [c] hne, h1, applyParts_snoc_ws acc c front final h]
    rfl

theorem processLine_append_ws (acc : Size) (w : List Char)
    (hw : ∀ c ∈ w, isJSWhiteSpace c = true) (p : List Char) :
    processLine acc (w ++ p) = processLine acc p := by
  induction w with
  | nil => rfl
  | cons c cs ih =>
    rw [List.cons_append, processLine_cons_ws acc c _ (hw c (by simp)),
      ih (fun d hd => hw d (List.mem_cons_of_mem _ hd))]

/-! ## The initial `sizeConfig.trim()` does not change the outcome -/

theorem foldl_split_cons_ws (acc : Size) (c : Char) (t : List Char)
    (h : isJSWhiteSpace c = true) :
    (split '\n' (c :: t)).foldl processLine acc = (split '\n' t).foldl processLine acc := by
  by_cases hc : c = '\n'
  · subst hc
    rw [split_cons_sep]
    rfl
  · obtain ⟨p, ps, hp, hp2⟩ := split_cons_ne '\n' c t hc
    rw [hp2, hp, List.foldl_cons, List.foldl_cons, processLine_cons_ws acc c p h]

theorem foldl_split_snoc_ws (acc : Size) (c : Char) (t : List Char)
    (h : isJSWhiteSpace c = true) :
    (split '\n' (t ++ [c])).foldl processLine acc = (split '\n' t).foldl processLine acc := by
  by_cases hc : c = '\n'
  · subst hc
    rw [split_append_sep, List.foldl_append]
    rfl
  · obtain ⟨front, final, h1, h2⟩ := split_snoc '\n' t
    have hne : '\n' ∉ [c] := by
      simpa using fun e : '\n' = c => hc e.symm
    rw [h2 [c] hne, h1, List.foldl_append, List.foldl_append, List.foldl_cons, List.foldl_cons,
      processLine_snoc_ws _ c final h]

theorem foldl_split_trimStart (acc : Size) (t : List Char) :
    (split '\n' (trimStart t)).foldl processLine acc = (split '\n' t).foldl processLine acc := by
  induction t with
  | nil => rfl
  | cons c cs ih =>
    cases hc : isJSWhiteSpace c
    · rw [trimStart_cons_of_not_ws c cs hc]
    · rw [trimStart_cons_ws c cs hc, ih, foldl_split_cons_ws acc c cs hc]

theorem foldl_split_append_ws (acc : Size) (w : List Char)
    (hw : ∀ c ∈ w, isJSWhiteSpace c = true) :
    ∀ u : List Char,
      (split '\n' (u ++ w)).foldl processLine acc = (split '\n' u).foldl processLine acc := by
  induction w with
  | nil => intro u; simp
  | cons c cs ih =>
    intro u
    have h1 : u ++ c :: cs = (u ++ [c]) ++ cs := by simp
    rw [h1, ih (fun d hd => hw d (List.mem_cons_of_mem _ hd)),
      foldl_split_snoc_ws acc c u (hw c (by simp))]

theorem foldl_split_trimEnd (acc : Size) (t : List Char) :
    (split '\n' (trimEnd t)).foldl processLine acc = (split '\n' t).foldl processLine acc := by
  obtain ⟨w, hw, ht⟩ := trimEnd_append_ws t
  conv_rhs => rw [ht]
  exact (foldl_split_append_ws acc w hw (trimEnd t)).symm

/-- The outcome of the `try` block is the fold of the callback over the lines of the
untrimmed text. -/
theorem parseSizeConfig_eq_foldl (t : List Char) :
    parseSizeConfig t = (split '\n' t).foldl processLine defaultSize := by
  unfold parseSizeConfig trim
  rw [foldl_split_trimEnd, foldl_split_trimStart]

/-! ## Files of well-formed lines -/

theorem inlineSpace_iff (w : List Char) :
    inlineSpace w = true ↔ ∀ c ∈ w, isJSWhiteSpace c = true ∧ c ≠ '\n' := by
  simp [inlineSpace, List.all_eq_true]

theorem inlineSpace_ws (w : List Char) (h : inlineSpace w = true) :
    ∀ c ∈ w, isJSWhiteSpace c = true :=
  fun c hc => ((inlineSpace_iff w).1 h c hc).1

theorem inlineSpace_no_newline (w : List Char) (h : inlineSpace w = true) : '\n' ∉ w :=
  fun hc => ((inlineSpace_iff w).1 h _ hc).2 rfl

theorem inlineSpace_no_eq (w : List Char) (h : inlineSpace w = true) : '=' ∉ w :=
  fun hc => ws_ne_eq _ (inlineSpace_ws w h _ hc) rfl

theorem contains_eq_false_iff (l : List Char) (c : Char) : (!l.contains c) = true ↔ c ∉ l := by
  simp

theorem render_no_newline (l : ConfigLine) (h : l.wellFormed = true) : '\n' ∉ l.render := by
  cases l with
  | blank ws => exact inlineSpace_no_newline ws h
  | comment body =>
    simp only [ConfigLine.wellFormed, contains_eq_false_iff] at h
    simp [ConfigLine.render, h]
  | width pre mid value =>
    simp only [ConfigLine.wellFormed, Bool.and_eq_true, contains_eq_false_iff] at h
    obtain ⟨⟨⟨h1, h2⟩, h3⟩, _⟩ := h
    simp [ConfigLine.render, inlineSpace_no_newline pre h1, inlineSpace_no_newline mid h2, h3,
      keyWidth]
  | height pre mid value =>
    simp only [ConfigLine.wellFormed, Bool.and_eq_true, contains_eq_false_iff] at h
    obtain ⟨⟨⟨h1, h2⟩, h3⟩, _⟩ := h
    simp [ConfigLine.render, inlineSpace_no_newline pre h1, inlineSpace_no_newline mid h2, h3,
      keyHeight]
  | noEquals text =>
    simp only [ConfigLine.wellFormed, Bool.and_eq_true, contains_eq_false_iff] at h
    exact h.1

theorem foldl_split_renderConfig (ls : List ConfigLine)
    (hwf : ∀ l ∈ ls, l.wellFormed = true) :
    ∀ acc : Size, (split '\n' (renderConfig ls)).foldl processLine acc
      = (ls.map ConfigLine.render).foldl processLine acc := by
  induction ls with
  | nil => intro acc; rfl
  | cons l ls ih =>
    intro acc
    have hl : '\n' ∉ l.render := render_no_newline l (hwf l (by simp))
    cases ls with
    | nil =>
      simp [renderConfig, split_of_not_mem _ _ hl]
    | cons l2 ls2 =>
      have ih2 := ih (fun x hx => hwf x (List.mem_cons_of_mem _ hx))
      show (split '\n' (l.render ++ '\n' :: renderConfig (l2 :: ls2))).foldl processLine acc = _
      rw [split_append_sep, split_of_not_mem _ _ hl, List.foldl_append, ih2]
      rfl

theorem processLine_setting (acc : Size) (key pre mid value : List Char) (k : Char)
    (krest : List Char) (hkey : key = k :: krest) (hk : isJSWhiteSpace k = false)
    (hk2 : k ≠ '#') (hkt : trim key = key) (hke : '=' ∉ key)
    (hpre : inlineSpace pre = true) (hmid : inlineSpace mid = true) (hv : '=' ∉ value) :
    processLine acc (pre ++ key ++ mid ++ '=' :: value) = applyParts acc [key, value] := by
  have e1 : pre ++ key ++ mid ++ '=' :: value = pre ++ ((key ++ mid) ++ '=' :: value) := by
    simp
  rw [e1, processLine_append_ws acc pre (inlineSpace_ws pre hpre)]
  have hsplit : split '=' ((key ++ mid) ++ '=' :: value) = [key ++ mid, value] := by
    rw [split_append_sep, split_of_not_mem _ _ hv, split_of_not_mem]
    · rfl
    · simp [hke, inlineSpace_no_eq mid hmid]
  have htrim : trim ((key ++ mid) ++ '=' :: value) ≠ [] := by
    rw [hkey]
    simp only [List.cons_append]
    rw [trim_cons_of_not_ws _ _ hk]
    simp
  have hstart : startsWith ((key ++ mid) ++ '=' :: value) '#' = false := by
    rw [hkey]
    simp [startsWith, hk2]
  unfold processLine
  rw [hsplit, hstart]
  have hkm : trim (key ++ mid) = key := by
    rw [trim_append_ws mid (inlineSpace_ws mid hmid), hkt]
  have : (trim ((key ++ mid) ++ '=' :: value)).isEmpty = false := by
    cases h : trim ((key ++ mid) ++ '=' :: value) with
    | nil => exact absurd h htrim
    | cons _ _ => rfl
  rw [this]
  simp only [Bool.not_false, Bool.and_self, if_true]
  simp only [applyParts, hkm, hkt]

theorem processLine_render (acc : Size) (l : ConfigLine) (h : l.wellFormed = true) :
    processLine acc l.render =
      match l with
      | .width _ _ v => { acc with windowWidth := jsOr (parseInt (trim v)) (.finite 1200) }
      | .height _ _ v => { acc with windowHeight := jsOr (parseInt (trim v)) (.finite 800) }
      | _ => acc := by
  cases l with
  | blank ws =>
    have : trim ws = [] := trim_all_ws ws (inlineSpace_ws ws h)
    simp [ConfigLine.render, processLine, this]
  | comment body => simp [ConfigLine.render, processLine, startsWith]
  | width pre mid value =>
    simp only [ConfigLine.wellFormed, Bool.and_eq_true, contains_eq_false_iff] at h
    obtain ⟨⟨⟨h1, h2⟩, _⟩, h4⟩ := h
    have := processLine_setting acc keyWidth pre mid value 'w' _ rfl (by decide) (by decide)
      (by decide) (by decide) h1 h2 h4
    simp only [ConfigLine.render]
    rw [this]
    simp [applyParts, show trim keyWidth = keyWidth by decide]
  | height pre mid value =>
    simp only [ConfigLine.wellFormed, Bool.and_eq_true, contains_eq_false_iff] at h
    obtain ⟨⟨⟨h1, h2⟩, _⟩, h4⟩ := h
    have := processLine_setting acc keyHeight pre mid value 'w' _ rfl (by decide) (by decide)
      (by decide) (by decide) h1 h2 h4
    simp only [ConfigLine.render]
    rw [this]
    simp [applyParts, show trim keyHeight = keyHeight by decide,
      show keyHeight ≠ keyWidth by decide]
  | noEquals text =>
    simp only [ConfigLine.wellFormed, Bool.and_eq_true, contains_eq_false_iff] at h
    simp only [ConfigLine.render, processLine, split_of_not_mem _ _ h.2, applyParts]
    split <;> rfl

theorem fieldValue_concat (d : JSNumber) (vs : List (List Char)) (v : List Char) :
    fieldValue d (vs ++ [v]) = jsOr (parseInt (trim v)) d := by
  simp [fieldValue]

theorem foldl_processLine_render (ls : List ConfigLine)
    (hwf : ∀ l ∈ ls, l.wellFormed = true) :
    (ls.map ConfigLine.render).foldl processLine defaultSize =
      ⟨fieldValue (.finite 1200) (widthValues ls), fieldValue (.finite 800) (heightValues ls)⟩ := by
  induction ls using List.reverseRecOn with
  | nil => rfl
  | append_singleton ls l ih =>
    have ih1 := ih (fun x hx => hwf x (by simp [hx]))
    have hl : l.wellFormed = true := hwf l (by simp)
    rw [List.map_append, List.foldl_append, ih1]
    simp only [List.map_cons, List.map_nil, List.foldl_cons, List.foldl_nil]
    rw [processLine_render _ l hl]
    cases l with
    | blank ws => simp [widthValues, heightValues, ConfigLine.widthValue?, ConfigLine.heightValue?]
    | comment body =>
      simp [widthValues, heightValues, ConfigLine.widthValue?, ConfigLine.heightValue?]
    | width pre mid value =>
      simp [widthValues, heightValues, ConfigLine.widthValue?, ConfigLine.heightValue?,
        List.filterMap_append, fieldValue]
    | height pre mid value =>
      simp [widthValues, heightValues, ConfigLine.widthValue?, ConfigLine.heightValue?,
        List.filterMap_append, fieldValue]
    | noEquals text =>
      simp [widthValues, heightValues, ConfigLine.widthValue?, ConfigLine.heightValue?]

/-- Outcome of the `try` block on a file of well-formed lines: each dimension is
selected independently by the lines for its own key. -/
theorem parseSizeConfig_renderConfig (ls : List ConfigLine)
    (hwf : ∀ l ∈ ls, l.wellFormed = true) :
    parseSizeConfig (renderConfig ls) =
      ⟨fieldValue (.finite 1200) (widthValues ls), fieldValue (.finite 800) (heightValues ls)⟩ := by
  rw [parseSizeConfig_eq_foldl, foldl_split_renderConfig ls hwf, foldl_processLine_render ls hwf]

/-! ## `parseInt` on decimal numerals -/

theorem digitChar_spec (d : Nat) (h : d < 10) :
    (48 ≤ (Nat.digitChar d).toNat ∧ (Nat.digitChar d).toNat ≤ 57) ∧
      digitValue 10 (Nat.digitChar d) = some d := by
  interval_cases d <;> decide

theorem decimal_not_ws (c : Char) (h : 48 ≤ c.toNat ∧ c.toNat ≤ 57) :
    isJSWhiteSpace c = false := by
  rw [← Bool.not_eq_true]
  intro hw
  simp only [isJSWhiteSpace, Bool.or_eq_true, Bool.and_eq_true, beq_iff_eq,
    decide_eq_true_eq] at hw
  omega

theorem decimal_isSome (c : Char) (h : 48 ≤ c.toNat ∧ c.toNat ≤ 57) :
    (digitValue 10 c).isSome = true := by
  have h2 : c.toNat - 48 < 10 := by omega
  simp [digitValue, h, h2]

theorem decimal_ne (c k : Char) (h : 48 ≤ c.toNat ∧ c.toNat ≤ 57)
    (hk : k.toNat < 48 ∨ 57 < k.toNat) : c ≠ k := by
  intro e
  subst e
  omega

theorem toDigitsCore_decimal (fuel : Nat) :
    ∀ (n : Nat) (ds : List Char), (∀ c ∈ ds, 48 ≤ c.toNat ∧ c.toNat ≤ 57) →
      ∀ c ∈ Nat.toDigitsCore 10 fuel n ds, 48 ≤ c.toNat ∧ c.toNat ≤ 57 := by
  induction fuel with
  | zero => exact fun n ds hds => hds
  | succ fuel ih =>
    intro n ds hds
    have hd := (digitChar_spec (n % 10) (Nat.mod_lt _ (by decide))).1
    have hcons : ∀ c ∈ Nat.digitChar (n % 10) :: ds, 48 ≤ c.toNat ∧ c.toNat ≤ 57 := by
      intro c hc
      rcases List.mem_cons.1 hc with h | h
      · rw [h]; exact hd
      · exact hds c h
    unfold Nat.toDigitsCore
    by_cases h0 : n / 10 = 0
    · simpa [h0] using hcons
    · simpa [h0] using ih (n / 10) _ hcons

theorem toDigitsCore_ne_nil (fuel : Nat) :
    ∀ (n : Nat) (ds : List Char), ds ≠ [] → Nat.toDigitsCore 10 fuel n ds ≠ [] := by
  induction fuel with
  | zero => exact fun n ds hds => hds
  | succ fuel ih =>
    intro n ds _
    unfold Nat.toDigitsCore
    by_cases h0 : n / 10 = 0
    · simp [h0]
    · simpa [h0] using ih (n / 10) (Nat.digitChar (n % 10) :: ds) (by simp)

theorem toDigits_ne_nil (n : Nat) : Nat.toDigits 10 n ≠ [] := by
  unfold Nat.toDigits Nat.toDigitsCore
  by_cases h0 : n / 10 = 0
  · simp [h0]
  · simpa [h0] using toDigitsCore_ne_nil n (n / 10) [Nat.digitChar (n % 10)] (by simp)

theorem toDigits_decimal (n : Nat) :
    ∀ c ∈ Nat.toDigits 10 n, 48 ≤ c.toNat ∧ c.toNat ≤ 57 :=
  toDigitsCore_decimal (n + 1) n [] (by simp)

theorem foldl_toDigitsCore (fuel : Nat) :
    ∀ (n : Nat) (ds : List Char), n < fuel →
      (Nat.toDigitsCore 10 fuel n ds).foldl (fun a c => a * 10 + (digitValue 10 c).getD 0) 0
        = ds.foldl (fun a c => a * 10 + (digitValue 10 c).getD 0) n := by
  induction fuel with
  | zero => intro n ds h; omega
  | succ fuel ih =>
    intro n ds h
    have hd := (digitChar_spec (n % 10) (Nat.mod_lt _ (by decide))).2
    unfold Nat.toDigitsCore
    by_cases h0 : n / 10 = 0
    · have hn : n % 10 = n := by omega
      simp only [h0, if_true, List.foldl_cons, hd, Option.getD_some, Nat.zero_mul, Nat.zero_add]
      rw [hn]
    · have hlt : n / 10 < fuel := by omega
      have hn : n / 10 * 10 + n % 10 = n := by omega
      simp only [h0, if_false]
      rw [ih (n / 10) _ hlt]
      simp [hd, hn]

theorem digitsValue_toDigits (n : Nat) : digitsValue 10 (Nat.toDigits 10 n) = n := by
  unfold digitsValue Nat.toDigits
  rw [foldl_toDigitsCore (n + 1) n [] (by omega)]
  rfl

theorem parseInt_decimal (ds : List Char) (hne : ds ≠ [])
    (hd : ∀ c ∈ ds, 48 ≤ c.toNat ∧ c.toNat ≤ 57) :
    parseInt ds = toNumber false (digitsValue 10 ds) := by
  cases ds with
  | nil => exact absurd rfl hne
  | cons c t =>
    have hc := hd c (by simp)
    have h1 : trimStart (c :: t) = c :: t := trimStart_cons_of_not_ws c t (decimal_not_ws c hc)
    have h2 : stripSign (c :: t) = (false, c :: t) := by
      simp [stripSign, decimal_ne c '-' hc (by decide), decimal_ne c '+' hc (by decide)]
    have h3 : stripHexMarker (c :: t) = (10, c :: t) := by
      cases t with
      | nil => rfl
      | cons c1 t1 =>
        have hc1 := hd c1 (by simp)
        simp [stripHexMarker, decimal_ne c1 'x' hc1 (by decide),
          decimal_ne c1 'X' hc1 (by decide)]
    have h4 : (c :: t).takeWhile (fun c => (digitValue 10 c).isSome) = c :: t := by
      rw [List.takeWhile_eq_self_iff]
      exact fun x hx => decimal_isSome x (hd x hx)
    simp only [parseInt, h1, h2, h3, h4]
    rfl

theorem toNumber_exact (n : Nat) (hpos : 0 < n) (hlt : n < 2 ^ 53) :
    toNumber false n = .finite n := by
  have h0 : n ≠ 0 := Nat.pos_iff_ne_zero.1 hpos
  have hr : roundToDouble n = some n := by
    unfold roundToDouble
    rw [if_pos hlt]
  simp [toNumber, hr, h0]

theorem jsOr_parseInt_numeral (n : Nat) (d : JSNumber) (w1 w2 : List Char)
    (h1 : w1.all isJSWhiteSpace = true) (h2 : w2.all isJSWhiteSpace = true)
    (hpos : 0 < n) (hlt : n < 2 ^ 53) :
    jsOr (parseInt (trim (w1 ++ Nat.toDigits 10 n ++ w2))) d = .finite n := by
  have hw1 : ∀ c ∈ w1, isJSWhiteSpace c = true := by simpa [List.all_eq_true] using h1
  have hw2 : ∀ c ∈ w2, isJSWhiteSpace c = true := by simpa [List.all_eq_true] using h2
  have hdec := toDigits_decimal n
  have htrim : trim (w1 ++ Nat.toDigits 10 n ++ w2) = Nat.toDigits 10 n := by
    rw [trim_append_ws w2 hw2, trim_ws_append w1 hw1,
      trim_eq_self_of_no_ws _ (fun c hc => decimal_not_ws c (hdec c hc))]
  rw [htrim, parseInt_decimal _ (toDigits_ne_nil n) hdec, digitsValue_toDigits,
    toNumber_exact n hpos hlt]
  have h0 : (n : Int) ≠ 0 := by exact_mod_cast Nat.pos_iff_ne_zero.1 hpos
  simp [jsOr, JSNumber.truthy, h0]

/-! ## The dimensions are never `NaN` or zero -/

theorem jsOr_truthy (a d : JSNumber) (hd : d.truthy = true) : (jsOr a d).truthy = true := by
  unfold jsOr
  cases ha : a.truthy
  · simpa using hd
  · simpa using ha

theorem applyParts_truthy (acc : Size) (parts : List (List Char))
    (h : acc.windowWidth.truthy = true ∧ acc.windowHeight.truthy = true) :
    (applyParts acc parts).windowWidth.truthy = true ∧
      (applyParts acc parts).windowHeight.truthy = true := by
  unfold applyParts
  split
  · simp only
    split
    · exact ⟨jsOr_truthy _ _ (by decide), h.2⟩
    · split
      · exact ⟨h.1, jsOr_truthy _ _ (by decide)⟩
      · exact h
  · exact h

theorem processLine_truthy (acc : Size) (line : List Char)
    (h : acc.windowWidth.truthy = true ∧ acc.windowHeight.truthy = true) :
    (processLine acc line).windowWidth.truthy = true ∧
      (processLine acc line).windowHeight.truthy = true := by
  unfold processLine
  split
  · exact applyParts_truthy acc _ h
  · exact h

theorem foldl_processLine_truthy (lines : List (List Char)) :
    ∀ acc : Size, acc.windowWidth.truthy = true ∧ acc.windowHeight.truthy = true →
      (lines.foldl processLine acc).windowWidth.truthy = true ∧
        (lines.foldl processLine acc).windowHeight.truthy = true := by
  induction lines with
  | nil => exact fun acc h => h
  | cons l ls ih => exact fun acc h => ih _ (processLine_truthy acc l h)

theorem parseSizeConfig_truthy (t : List Char) :
    (parseSizeConfig t).windowWidth.truthy = true ∧
      (parseSizeConfig t).windowHeight.truthy = true :=
  foldl_processLine_truthy _ defaultSize ⟨by decide, by decide⟩

/-! ## Positive results -/

theorem jsOr_toNumber_positive (m : Nat) (d : JSNumber) (hd : d.isPositive = true) :
    (jsOr (toNumber false m) d).isPositive = true := by
  unfold toNumber
  by_cases hm : m = 0
  · simpa [hm, jsOr, JSNumber.truthy] using hd
  · simp only [hm, if_false]
    cases roundToDouble m with
    | none => simp [jsOr, JSNumber.truthy, JSNumber.isPositive]
    | some k =>
      by_cases hk : k = 0
      · simpa [hk, jsOr, JSNumber.truthy] using hd
      · have hk1 : (k : Int) ≠ 0 := by exact_mod_cast hk
        have hk2 : (0 : Int) < k := by omega
        simp [jsOr, JSNumber.truthy, JSNumber.isPositive, hk1, hk2]

theorem newWindowArgs_append (es fs : List Effect) :
    newWindowArgs (es ++ fs) = newWindowArgs es ++ newWindowArgs fs := by
  induction es with
  | nil => rfl
  | cons e es ih => cases e <;> simp [newWindowArgs, ih]

theorem createWindow_args (read : Except JSError (List Char)) (s : Host) (sz : Size) (b : Bool)
    (h : loadSize read = .ok (sz, b)) :
    ∃ s1, createWindow read s = .ok s1 ∧
      newWindowArgs s1.effects = newWindowArgs s.effects ++ [(sz.windowWidth, sz.windowHeight)] := by
  unfold createWindow
  rw [h]
  refine ⟨_, rfl, ?_⟩
  cases b <;>
    simp [createMenu, Host.emit, newWindowArgs_append, newWindowArgs]

/-! ## The size-loading step on well-formed files -/

/-- C1, refuted: for the two-line file `windowWidth=9007199254740993`,
`windowHeight=600` the width obtained is 9007199254740992, not the W written in
the file, because `parseInt` returns the nearest double. -/
theorem loadSize_numeral_above_two_pow_53 :
    renderConfig [.width [] [] (Nat.toDigits 10 9007199254740993),
        .height [] [] (Nat.toDigits 10 600)]
      = "windowWidth=9007199254740993\nwindowHeight=600".toList ∧
    loadSize (.ok "windowWidth=9007199254740993\nwindowHeight=600".toList)
      = .ok (⟨.finite 9007199254740992, .finite 600⟩, false) ∧
    JSNumber.finite 9007199254740992 ≠ .finite 9007199254740993 := by
  have h : parseSizeConfig "windowWidth=9007199254740993\nwindowHeight=600".toList
      = ⟨.finite 9007199254740992, .finite 600⟩ := by decide
  exact ⟨by decide, by simp only [loadSize, h], by decide⟩

/-- C1, amended: for a file whose lines are well formed (blank lines, `#` comment
lines, lines without `=`, and `key=value` lines for the two keys with optional
whitespace around key and value), with exactly one `windowWidth` line whose value
is the decimal numeral of W and exactly one `windowHeight` line whose value is the
decimal numeral of H, in either order, where 0 < W < 2^53 and 0 < H < 2^53, the
size-loading step yields width W and height H exactly, without the fallback. -/
theorem loadSize_wellFormed_exact (ls : List ConfigLine) (W H : Nat)
    (w1 w2 h1 h2 : List Char)
    (hwf : ∀ l ∈ ls, l.wellFormed = true)
    (hW : widthValues ls = [w1 ++ Nat.toDigits 10 W ++ w2])
    (hH : heightValues ls = [h1 ++ Nat.toDigits 10 H ++ h2])
    (hw1 : w1.all isJSWhiteSpace = true) (hw2 : w2.all isJSWhiteSpace = true)
    (hh1 : h1.all isJSWhiteSpace = true) (hh2 : h2.all isJSWhiteSpace = true)
    (hWpos : 0 < W) (hWlt : W < 2 ^ 53) (hHpos : 0 < H) (hHlt : H < 2 ^ 53) :
    loadSize (.ok (renderConfig ls)) = .ok (⟨.finite W, .finite H⟩, false) := by
  have h := parseSizeConfig_renderConfig ls hwf
  rw [hW, hH] at h
  have e1 : fieldValue (.finite 1200) [w1 ++ Nat.toDigits 10 W ++ w2] = .finite W := by
    have := fieldValue_concat (.finite 1200) [] (w1 ++ Nat.toDigits 10 W ++ w2)
    rw [List.nil_append] at this
    rw [this, jsOr_parseInt_numeral W _ w1 w2 hw1 hw2 hWpos hWlt]
  have e2 : fieldValue (.finite 800) [h1 ++ Nat.toDigits 10 H ++ h2] = .finite H := by
    have := fieldValue_concat (.finite 800) [] (h1 ++ Nat.toDigits 10 H ++ h2)
    rw [List.nil_append] at this
    rw [this, jsOr_parseInt_numeral H _ h1 h2 hh1 hh2 hHpos hHlt]
  rw [e1, e2] at h
  simp only [loadSize, h]

/-- Concrete instance: a comment, ` windowHeight = 600` with
a carriage return, a blank line, `windowWidth=900` and a final line feed. -/
theorem loadSize_wellFormed_exact_witness :
    renderConfig [.comment " size".toList,
        .height [' '] [' '] (' ' :: Nat.toDigits 10 600 ++ ['\r']), .blank ['\r'],
        .width [] [] ([] ++ Nat.toDigits 10 900 ++ []), .blank []]
      = "# size\n windowHeight = 600\r\n\r\nwindowWidth=900\n".toList ∧
    loadSize (.ok (renderConfig [.comment " size".toList,
        .height [' '] [' '] (' ' :: Nat.toDigits 10 600 ++ ['\r']), .blank ['\r'],
        .width [] [] ([] ++ Nat.toDigits 10 900 ++ []), .blank []]))
      = .ok (⟨.finite (900 : Nat), .finite (600 : Nat)⟩, false) :=
  ⟨by decide,
    loadSize_wellFormed_exact _ 900 600 [] [] [' '] ['\r'] (by decide) (by decide) (by decide)
      (by decide) (by decide) (by decide) (by decide) (by decide) (by decide) (by decide)
      (by decide)⟩

/-- C3, refuted: a file that sets only `windowWidth=900` yields 900 by 800, and a
file whose width value is not an integer yields 1200 by 600; neither is the full
default 1200 by 800. -/
theorem loadSize_incomplete_not_full_default :
    loadSize (.ok "windowWidth=900".toList) = .ok (⟨.finite 900, .finite 800⟩, false) ∧
    loadSize (.ok "windowWidth=abc\nwindowHeight=600".toList)
      = .ok (⟨.finite 1200, .finite 600⟩, false) ∧
    (⟨.finite 900, .finite 800⟩ : Size) ≠ ⟨.finite 1200, .finite 800⟩ ∧
    (⟨.finite 1200, .finite 600⟩ : Size) ≠ ⟨.finite 1200, .finite 800⟩ := by
  have h1 : parseSizeConfig "windowWidth=900".toList = ⟨.finite 900, .finite 800⟩ := by decide
  have h2 : parseSizeConfig "windowWidth=abc\nwindowHeight=600".toList
      = ⟨.finite 1200, .finite 600⟩ := by decide
  exact ⟨by simp only [loadSize, h1], by simp only [loadSize, h2], by decide, by decide⟩

/-! ## The arguments of the `BrowserWindow` constructor -/

/-- C4, refuted: with `windowWidth=-5` in the file the width passed to the
`BrowserWindow` constructor is -5, which is not an integer greater than 0 (the
value `0` on the other line does give the default 800); and with a width value of
1 followed by 309 zeros the width passed is `Infinity`, which is not an integer. -/
theorem createWindow_negative_width :
    (∃ s, createWindow (.ok "windowWidth=-5\nwindowHeight=0".toList) (Host.init false) = .ok s ∧
      newWindowArgs s.effects = [(.finite (-5), .finite 800)] ∧
      (JSNumber.finite (-5)).isPositiveInteger = false) ∧
    (∃ s, createWindow (.ok ("windowWidth=".toList ++ '1' :: List.replicate 309 '0'))
        (Host.init false) = .ok s ∧
      newWindowArgs s.effects = [(.posInf, .finite 800)] ∧
      JSNumber.posInf.isPositiveInteger = false) := by
  refine ⟨⟨_, rfl, by decide, by decide⟩, ⟨_, rfl, ?_, by decide⟩⟩
  set_option maxRecDepth 100000 in set_option exponentiation.threshold 2000 in decide

/-! ## Every text: the callback seen through `lineSetting` -/

theorem length_split (sep : Char) (s : List Char) :
    (split sep s).length = s.count sep + 1 := by
  induction s with
  | nil => rfl
  | cons c cs ih =>
    by_cases hc : c = sep
    · subst hc
      simp [split, ih]
    · obtain ⟨p, ps, hp, hp2⟩ := split_cons_ne sep c cs hc
      rw [hp2, List.count_cons_of_ne (Ne.symm hc), ← ih, hp]
      rfl

theorem split_of_count_one (sep : Char) (s : List Char) (h : s.count sep = 1) :
    split sep s = [s.takeWhile (fun c => c != sep), (s.dropWhile (fun c => c != sep)).drop 1] := by
  induction s with
  | nil => simp at h
  | cons c cs ih =>
    by_cases hc : c = sep
    · subst hc
      have h0 : cs.count c = 0 := by simpa using h
      have hmem : c ∉ cs := List.count_eq_zero.1 h0
      simp [split, split_of_not_mem c cs hmem, List.takeWhile, List.dropWhile]
    · have h1 : cs.count sep = 1 := by
        rwa [List.count_cons_of_ne (Ne.symm hc)] at h
      have hb : (c != sep) = true := by simpa using hc
      simp [split, hc, ih h1, List.takeWhile, List.dropWhile, hb]

theorem trim_eq_nil_iff (s : List Char) : trim s = [] ↔ ∀ c ∈ s, isJSWhiteSpace c = true := by
  constructor
  · intro h
    induction s with
    | nil => simp
    | cons c cs ih =>
      cases hc : isJSWhiteSpace c
      · rw [trim_cons_of_not_ws c cs hc] at h
        exact absurd h (by simp)
      · rw [trim_cons_ws c cs hc] at h
        intro d hd
        rcases List.mem_cons.1 hd with e | e
        · rw [e]; exact hc
        · exact ih h d e
  · exact trim_all_ws s

theorem trim_isEmpty (s : List Char) : (trim s).isEmpty = s.all isJSWhiteSpace := by
  rw [Bool.eq_iff_iff, List.isEmpty_iff, trim_eq_nil_iff, List.all_eq_true]

theorem applyParts_of_length_ne (acc : Size) (parts : List (List Char))
    (h : parts.length ≠ 2) : applyParts acc parts = acc := by
  unfold applyParts
  split
  · simp at h
  · rfl

theorem processLine_eq_lineSetting (acc : Size) (line : List Char) :
    processLine acc line =
      match lineSetting line with
      | none => acc
      | some (k, v) =>
        if k = keyWidth then
          { acc with windowWidth := jsOr (parseInt (trim v)) (.finite 1200) }
        else if k = keyHeight then
          { acc with windowHeight := jsOr (parseInt (trim v)) (.finite 800) }
        else acc := by
  unfold processLine lineSetting
  rw [trim_isEmpty]
  cases hb : line.all isJSWhiteSpace
  · cases hs : startsWith line '#'
    · by_cases hc : line.count '=' = 1
      · simp [hc, split_of_count_one '=' line hc, applyParts]
      · have hl : (split '=' line).length ≠ 2 := by
          rw [length_split]
          omega
        simp [hc, applyParts_of_length_ne acc _ hl]
    · simp
  · simp

theorem valueFor_keyWidth (line k v : List Char) (h : lineSetting line = some (k, v)) :
    valueFor keyWidth line = (if k = keyWidth then some v else none) ∧
    valueFor keyHeight line = (if k = keyHeight then some v else none) := by
  simp [valueFor, h]

theorem foldl_processLine_eq_fieldValue (lines : List (List Char)) :
    lines.foldl processLine defaultSize =
      ⟨fieldValue (.finite 1200) (lines.filterMap (valueFor keyWidth)),
       fieldValue (.finite 800) (lines.filterMap (valueFor keyHeight))⟩ := by
  induction lines using List.reverseRecOn with
  | nil => rfl
  | append_singleton ls l ih =>
    rw [List.foldl_append, ih, List.filterMap_append, List.filterMap_append]
    simp only [List.foldl_cons, List.foldl_nil]
    rw [processLine_eq_lineSetting]
    cases hl : lineSetting l with
    | none => simp [valueFor, hl]
    | some kv =>
      obtain ⟨k, v⟩ := kv
      by_cases hw : k = keyWidth
      · have hh : k ≠ keyHeight := by
          rw [hw]; decide
        simp [valueFor, hl, hw, fieldValue, show keyWidth ≠ keyHeight by decide]
      · by_cases hh : k = keyHeight
        · simp [valueFor, hl, hh, fieldValue, show keyHeight ≠ keyWidth by decide]
        · simp [valueFor, hl, hw, hh]

/-- For every text, each dimension is selected by the lines that set its own key. -/
theorem parseSizeConfig_eq_fieldValue (t : List Char) :
    parseSizeConfig t =
      ⟨fieldValue (.finite 1200) (valuesFor keyWidth t),
       fieldValue (.finite 800) (valuesFor keyHeight t)⟩ := by
  rw [parseSizeConfig_eq_foldl, foldl_processLine_eq_fieldValue]
  rfl

/-! ## Size of the number returned by `parseInt` -/

theorem bitLengthAux_le (fuel : Nat) :
    ∀ n k : Nat, n < 2 ^ k → bitLengthAux fuel n ≤ k := by
  induction fuel with
  | zero => intro n k _; simp [bitLengthAux]
  | succ fuel ih =>
    intro n k h
    unfold bitLengthAux
    by_cases h0 : n = 0
    · simp [h0]
    · simp only [h0, if_false]
      cases k with
      | zero =>
        simp at h
        exact absurd h h0
      | succ k =>
        have h2 : n / 2 < 2 ^ k := by
          rw [Nat.pow_succ] at h
          omega
        have := ih (n / 2) k h2
        omega

theorem two_pow_bitLengthAux_le (fuel : Nat) :
    ∀ n : Nat, n ≤ fuel → 0 < n → 2 ^ (bitLengthAux fuel n - 1) ≤ n := by
  induction fuel with
  | zero => intro n h1 h2; omega
  | succ fuel ih =>
    intro n h1 h2
    unfold bitLengthAux
    have h0 : n ≠ 0 := by omega
    simp only [h0, if_false, Nat.add_sub_cancel]
    by_cases hh : n / 2 = 0
    · have : bitLengthAux fuel (n / 2) = 0 := by
        rw [hh]
        cases fuel <;> simp [bitLengthAux]
      rw [this]
      simpa using h2
    · have hpos : 0 < n / 2 := Nat.pos_of_ne_zero hh
      have hle : n / 2 ≤ fuel := by omega
      have h3 := ih (n / 2) hle hpos
      have h4 : 1 ≤ bitLengthAux fuel (n / 2) := by
        cases fuel with
        | zero => omega
        | succ f =>
          unfold bitLengthAux
          simp [hh]
      have h5 : bitLengthAux fuel (n / 2) = (bitLengthAux fuel (n / 2) - 1) + 1 := by omega
      rw [h5, Nat.pow_succ]
      omega

theorem bitLength_le (n k : Nat) (h : n < 2 ^ k) : bitLength n ≤ k :=
  bitLengthAux_le n n k h

theorem two_pow_bitLength_le (n : Nat) (h : 0 < n) : 2 ^ (bitLength n - 1) ≤ n :=
  two_pow_bitLengthAux_le n n (Nat.le_refl n) h

theorem roundToDouble_isSome (m : Nat) (h : m < 2 ^ (4 * 255)) : ∃ k, roundToDouble m = some k := by
  unfold roundToDouble
  by_cases h53 : m < 2 ^ 53
  · exact ⟨m, by rw [if_pos h53]⟩
  · rw [if_neg h53]
    have hpos : 0 < m := by
      have : 0 < 2 ^ 53 := Nat.two_pow_pos 53
      omega
    have he : 2 ^ (bitLength m - 53) ≤ m :=
      le_trans (Nat.pow_le_pow_right (by decide) (by omega)) (two_pow_bitLength_le m hpos)
    have hdm : m / 2 ^ (bitLength m - 53) * 2 ^ (bitLength m - 53) ≤ m := Nat.div_mul_le_self _ _
    have hbound : ∀ q, q ≤ m / 2 ^ (bitLength m - 53) + 1 →
        bitLength (q * 2 ^ (bitLength m - 53)) ≤ 1024 := by
      intro q hq
      have h1 : q * 2 ^ (bitLength m - 53)
          ≤ (m / 2 ^ (bitLength m - 53) + 1) * 2 ^ (bitLength m - 53) :=
        Nat.mul_le_mul_right _ hq
      rw [Nat.add_mul, Nat.one_mul] at h1
      have h2 : q * 2 ^ (bitLength m - 53) < 2 ^ (4 * 255 + 1) := by
        rw [Nat.pow_succ]
        omega
      have := bitLength_le _ (4 * 255 + 1) h2
      omega
    simp only
    split
    · have := hbound _ (Nat.le_refl _)
      exact ⟨_, by rw [if_pos this]⟩
    · have := hbound (m / 2 ^ (bitLength m - 53)) (Nat.le_succ _)
      exact ⟨_, by rw [if_pos this]⟩

theorem digitValue_getD_lt (R : Nat) (c : Char) (hR : 0 < R) : (digitValue R c).getD 0 < R := by
  unfold digitValue
  simp only
  split
  · rename_i d hd
    split <;> simp_all
  · simpa using hR

theorem foldl_digits_lt (R : Nat) (hR : 0 < R) (Z : List Char) :
    ∀ a : Nat, Z.foldl (fun a c => a * R + (digitValue R c).getD 0) a + 1
      ≤ (a + 1) * R ^ Z.length := by
  induction Z with
  | nil => intro a; simp
  | cons c cs ih =>
    intro a
    have hd := digitValue_getD_lt R c hR
    have h1 := ih (a * R + (digitValue R c).getD 0)
    have h2 : a * R + (digitValue R c).getD 0 + 1 ≤ (a + 1) * R := by
      rw [Nat.add_mul, Nat.one_mul]
      omega
    calc (c :: cs).foldl (fun a c => a * R + (digitValue R c).getD 0) a + 1
        ≤ (a * R + (digitValue R c).getD 0 + 1) * R ^ cs.length := h1
      _ ≤ ((a + 1) * R) * R ^ cs.length := Nat.mul_le_mul_right _ h2
      _ = (a + 1) * R ^ (c :: cs).length := by
          rw [List.length_cons, Nat.pow_succ, Nat.mul_assoc, Nat.mul_comm R]

theorem digitsValue_lt (R : Nat) (hR : 0 < R) (Z : List Char) :
    digitsValue R Z < R ^ Z.length := by
  have := foldl_digits_lt R hR Z 0
  unfold digitsValue
  omega

theorem sixteen_pow_eq : (16 : Nat) ^ 255 = 2 ^ (4 * 255) := by
  rw [Nat.pow_mul]

theorem digitsValue_lt_two_pow (R : Nat) (hR : R = 10 ∨ R = 16) (Z : List Char)
    (hZ : Z.length ≤ 255) : digitsValue R Z < 2 ^ (4 * 255) := by
  have hpos : 0 < R := by omega
  have h1 := digitsValue_lt R hpos Z
  have h2 : R ^ Z.length ≤ 16 ^ Z.length := Nat.pow_le_pow_left (by omega) _
  have h3 : 16 ^ Z.length ≤ 16 ^ 255 := Nat.pow_le_pow_right (by decide) hZ
  rw [← sixteen_pow_eq]
  exact lt_of_lt_of_le h1 (le_trans h2 h3)

/-! ## The shape of a `parseInt` result -/

theorem trimStart_trim (v : List Char) : trimStart (trim v) = trim v := by
  induction v with
  | nil => rfl
  | cons c cs ih =>
    cases hc : isJSWhiteSpace c
    · rw [trim_cons_of_not_ws c cs hc, trimStart_cons_of_not_ws c _ hc]
    · rw [trim_cons_ws c cs hc, ih]

theorem stripSign_spec (s : List Char) :
    (stripSign s).1 = startsWith s '-' ∧ (stripSign s).2.length ≤ s.length := by
  cases s with
  | nil => exact ⟨rfl, Nat.le_refl _⟩
  | cons c t =>
    unfold stripSign startsWith
    by_cases h1 : c = '-'
    · simp [h1]
    · by_cases h2 : c = '+'
      · simp [h2]
      · simp [h1, h2]

theorem stripHexMarker_spec (s : List Char) :
    ((stripHexMarker s).1 = 10 ∨ (stripHexMarker s).1 = 16) ∧
      (stripHexMarker s).2.length ≤ s.length := by
  unfold stripHexMarker
  split
  · split
    · exact ⟨Or.inr rfl, by simp; omega⟩
    · exact ⟨Or.inl rfl, Nat.le_refl _⟩
  · exact ⟨Or.inl rfl, Nat.le_refl _⟩

theorem parseInt_cases (v : List Char) :
    parseInt v = .nan ∨ ∃ R Z, (R = 10 ∨ R = 16) ∧ Z.length ≤ v.length ∧
      parseInt v = toNumber (startsWith (trimStart v) '-') (digitsValue R Z) := by
  unfold parseInt
  simp only
  split
  · exact Or.inl rfl
  · refine Or.inr ⟨(stripHexMarker (stripSign (trimStart v)).2).1,
      (stripHexMarker (stripSign (trimStart v)).2).2.takeWhile
        (fun c => (digitValue (stripHexMarker (stripSign (trimStart v)).2).1 c).isSome),
      (stripHexMarker_spec _).1, ?_, ?_⟩
    · have h1 := (List.takeWhile_sublist
        (fun c => (digitValue (stripHexMarker (stripSign (trimStart v)).2).1 c).isSome)
        (l := (stripHexMarker (stripSign (trimStart v)).2).2)).length_le
      have h2 := (stripHexMarker_spec (stripSign (trimStart v)).2).2
      have h3 := (stripSign_spec (trimStart v)).2
      have h4 : (trimStart v).length ≤ v.length := (List.dropWhile_sublist _).length_le
      omega
    · rw [(stripSign_spec (trimStart v)).1]

theorem jsOr_toNumber_positiveInteger (m : Nat) (d : JSNumber) (hm : m < 2 ^ (4 * 255))
    (hd : d.isPositiveInteger = true) :
    (jsOr (toNumber false m) d).isPositiveInteger = true := by
  obtain ⟨k, hk⟩ := roundToDouble_isSome m hm
  unfold toNumber
  by_cases h0 : m = 0
  · simpa [h0, jsOr, JSNumber.truthy] using hd
  · simp only [h0, if_false, hk]
    by_cases hk0 : k = 0
    · simpa [hk0, jsOr, JSNumber.truthy] using hd
    · have hk1 : (k : Int) ≠ 0 := by exact_mod_cast hk0
      have hk2 : (0 : Int) < k := by omega
      simp [jsOr, JSNumber.truthy, JSNumber.isPositiveInteger, hk1, hk2]

theorem parseInt_negative_numeral (n : Nat) :
    parseInt ('-' :: Nat.toDigits 10 n) = toNumber true n := by
  have hd := toDigits_decimal n
  have hne := toDigits_ne_nil n
  have h1 : trimStart ('-' :: Nat.toDigits 10 n) = '-' :: Nat.toDigits 10 n :=
    trimStart_cons_of_not_ws _ _ (by decide)
  have h2 : stripSign ('-' :: Nat.toDigits 10 n) = (true, Nat.toDigits 10 n) := by
    simp [stripSign]
  have h3 : stripHexMarker (Nat.toDigits 10 n) = (10, Nat.toDigits 10 n) := by
    generalize Nat.toDigits 10 n = ds at hd
    cases ds with
    | nil => rfl
    | cons c t =>
      cases t with
      | nil => rfl
      | cons c1 t1 =>
        have hc1 := hd c1 (by simp)
        simp [stripHexMarker, decimal_ne c1 'x' hc1 (by decide),
          decimal_ne c1 'X' hc1 (by decide)]
  have h4 : (Nat.toDigits 10 n).takeWhile (fun c => (digitValue 10 c).isSome)
      = Nat.toDigits 10 n := by
    rw [List.takeWhile_eq_self_iff]
    exact fun x hx => decimal_isSome x (hd x hx)
  have h5 : (Nat.toDigits 10 n).isEmpty = false := by
    cases h : Nat.toDigits 10 n with
    | nil => exact absurd h hne
    | cons _ _ => rfl
  simp only [parseInt, h1, h2, h3, h4, h5, digitsValue_toDigits]
  rfl

theorem toNumber_negative_exact (n : Nat) (hpos : 0 < n) (hlt : n < 2 ^ 53) :
    toNumber true n = .finite (-(n : Int)) := by
  have h0 : n ≠ 0 := Nat.pos_iff_ne_zero.1 hpos
  have hr : roundToDouble n = some n := by
    unfold roundToDouble
    rw [if_pos hlt]
  simp [toNumber, hr, h0]

/-! ## What every dimension satisfies -/

theorem isPositiveInteger_imp (d : JSNumber) (h : d.isPositiveInteger = true) :
    d.truthy = true ∧ d.isPositive = true := by
  cases d with
  | finite z =>
    have hz : 0 < z := by simpa [JSNumber.isPositiveInteger] using h
    have hz0 : z ≠ 0 := by omega
    simp [JSNumber.truthy, JSNumber.isPositive, hz, hz0]
  | nan => simp [JSNumber.isPositiveInteger] at h
  | negZero => simp [JSNumber.isPositiveInteger] at h
  | posInf => simp [JSNumber.isPositiveInteger] at h
  | negInf => simp [JSNumber.isPositiveInteger] at h

theorem fieldValue_spec (d : JSNumber) (hd : d.isPositiveInteger = true)
    (vs : List (List Char)) :
    DimensionSpec d (vs.getLast?.map trim) (fieldValue d vs) := by
  obtain ⟨hdt, hdp⟩ := isPositiveInteger_imp d hd
  unfold fieldValue DimensionSpec
  cases hl : vs.getLast? with
  | none =>
    refine ⟨hdt, fun _ => rfl, ?_, ?_, ?_, ?_⟩
    · intro h; simp at h
    · intro v h; simp at h
    · intro v h; simp at h
    · intro n h; simp at h
  | some v0 =>
    simp only [Option.map_some', Option.some.injEq]
    refine ⟨jsOr_truthy _ _ hdt, fun h => by simp at h, ?_, ?_, ?_, ?_⟩
    · intro h
      rw [h, show parseInt ['0'] = .finite 0 by decide]
      rfl
    · intro v hv hs
      subst hv
      rcases parseInt_cases (trim v0) with h | ⟨R, Z, _, _, h⟩
      · rw [h]
        simpa [jsOr, JSNumber.truthy] using hdp
      · rw [h, trimStart_trim, hs]
        exact jsOr_toNumber_positive _ d hdp
    · intro v hv hs hlen
      subst hv
      rcases parseInt_cases (trim v0) with h | ⟨R, Z, hR, hZ, h⟩
      · rw [h]
        simpa [jsOr, JSNumber.truthy] using hd
      · rw [h, trimStart_trim, hs]
        exact jsOr_toNumber_positiveInteger _ d
          (digitsValue_lt_two_pow R hR Z (le_trans hZ hlen)) hd
    · intro n hv hpos hlt
      rw [hv, parseInt_negative_numeral, toNumber_negative_exact n hpos hlt]
      have h0 : (n : Int) ≠ 0 := by exact_mod_cast Nat.pos_iff_ne_zero.1 hpos
      simp [jsOr, JSNumber.truthy, h0]

/-! ## Defaults apply field by field, for every text -/

/-- C3, amended: for every text whatsoever the two dimensions are defaulted
independently. A line sets key K when it is not blank, does not begin with `#`,
contains exactly one `=` and the trimmed text before the `=` is K; its value is the
text after the `=`. The width is 1200 when no line sets `windowWidth`, and
otherwise `parseInt(v) || 1200` for the value `v` of the last line that does; the
height is 800 when no line sets `windowHeight`, and otherwise `parseInt(v) || 800`
for the value of the last line that does. So a text in which no line sets either
key returns exactly 1200 by 800, and a missing or unparsable value defaults its own
field only. -/
theorem loadSize_defaults_per_field (t : List Char) :
    loadSize (.ok t) =
      .ok (⟨fieldValue (.finite 1200) (valuesFor keyWidth t),
            fieldValue (.finite 800) (valuesFor keyHeight t)⟩, false) ∧
    (valuesFor keyWidth t = [] → fieldValue (.finite 1200) (valuesFor keyWidth t) = .finite 1200) ∧
    (valuesFor keyHeight t = [] → fieldValue (.finite 800) (valuesFor keyHeight t) = .finite 800) ∧
    (valuesFor keyWidth t = [] → valuesFor keyHeight t = [] →
      loadSize (.ok t) = .ok (⟨.finite 1200, .finite 800⟩, false)) ∧
    (∀ vs v, valuesFor keyWidth t = vs ++ [v] →
      fieldValue (.finite 1200) (valuesFor keyWidth t) = jsOr (parseInt (trim v)) (.finite 1200)) ∧
    (∀ vs v, valuesFor keyHeight t = vs ++ [v] →
      fieldValue (.finite 800) (valuesFor keyHeight t) = jsOr (parseInt (trim v)) (.finite 800)) ∧
    (∀ a d : JSNumber, a.truthy = false → jsOr a d = d) := by
  have hmain : loadSize (.ok t) =
      .ok (⟨fieldValue (.finite 1200) (valuesFor keyWidth t),
            fieldValue (.finite 800) (valuesFor keyHeight t)⟩, false) := by
    simp only [loadSize, parseSizeConfig_eq_fieldValue t]
  refine ⟨hmain, ?_, ?_, ?_, ?_, ?_, ?_⟩
  · intro h; rw [h]; rfl
  · intro h; rw [h]; rfl
  · intro h1 h2
    rw [hmain, h1, h2]
    rfl
  · intro vs v h; rw [h, fieldValue_concat]
  · intro vs v h; rw [h, fieldValue_concat]
  · intro a d h
    simp [jsOr, h]

/-- Concrete instance for C3: in the text `foo=bar`, `windowWidth=900=1` no line
sets either key, and the result is 1200 by 800. -/
theorem loadSize_defaults_per_field_witness :
    valuesFor keyWidth "foo=bar\nwindowWidth=900=1".toList = [] ∧
    valuesFor keyHeight "foo=bar\nwindowWidth=900=1".toList = [] ∧
    loadSize (.ok "foo=bar\nwindowWidth=900=1".toList)
      = .ok (⟨.finite 1200, .finite 800⟩, false) :=
  ⟨by decide, by decide,
    (loadSize_defaults_per_field "foo=bar\nwindowWidth=900=1".toList).2.2.2.1
      (by decide) (by decide)⟩

/-! ## The arguments of the `BrowserWindow` constructor, for every text -/

/-- C4, amended: whatever the read of `size.config` returns, `createWindow`
succeeds and the width and height it passes to the `BrowserWindow` constructor are
never `NaN` and never zero. For every text, each of the two satisfies
`DimensionSpec` with respect to the trimmed value of the last line that sets its
key: it is the default (1200, 800) when no line sets the key and when that value is
`0`; it is strictly greater than 0 whenever that value does not begin with `-`, and
is then an integer whenever the value has at most 255 characters; and a value `-n`
with 0 < n < 2^53 gives the negative integer -n. -/
theorem createWindow_dimensions :
    (∀ (read : Except JSError (List Char)) (s : Host), ∃ s1 w h,
      createWindow read s = .ok s1 ∧
      newWindowArgs s1.effects = newWindowArgs s.effects ++ [(w, h)] ∧
      w.truthy = true ∧ h.truthy = true) ∧
    (∀ (t : List Char) (s : Host), ∃ s1 w h,
      createWindow (.ok t) s = .ok s1 ∧
      newWindowArgs s1.effects = newWindowArgs s.effects ++ [(w, h)] ∧
      DimensionSpec (.finite 1200) (lastValue keyWidth t) w ∧
      DimensionSpec (.finite 800) (lastValue keyHeight t) h) := by
  constructor
  · intro read s
    cases read with
    | error e =>
      obtain ⟨s1, e1, e2⟩ := createWindow_args (.error e) s defaultSize true rfl
      exact ⟨s1, _, _, e1, e2, by decide, by decide⟩
    | ok t =>
      obtain ⟨s1, e1, e2⟩ := createWindow_args (.ok t) s (parseSizeConfig t) false rfl
      exact ⟨s1, _, _, e1, e2, (parseSizeConfig_truthy t).1, (parseSizeConfig_truthy t).2⟩
  · intro t s
    obtain ⟨s1, e1, e2⟩ := createWindow_args (.ok t) s (parseSizeConfig t) false rfl
    rw [parseSizeConfig_eq_fieldValue t] at e2
    exact ⟨s1, _, _, e1, e2, fieldValue_spec _ (by decide) _, fieldValue_spec _ (by decide) _⟩

/-- Concrete instance for C4: the text `# my-config`, `windowWidth=900` contains a
`-` in its comment only; the width passed is a positive integer and the height is
the default 800. -/
theorem createWindow_dimensions_witness :
    lastValue keyWidth "# my-config\nwindowWidth=900".toList = some ['9', '0', '0'] ∧
    lastValue keyHeight "# my-config\nwindowWidth=900".toList = none ∧
    ∃ s1 w h, createWindow (.ok "# my-config\nwindowWidth=900".toList) (Host.init false)
        = .ok s1 ∧
      newWindowArgs s1.effects = newWindowArgs (Host.init false).effects ++ [(w, h)] ∧
      w.isPositiveInteger = true ∧ h = .finite 800 := by
  have hw : lastValue keyWidth "# my-config\nwindowWidth=900".toList = some ['9', '0', '0'] := by
    decide
  have hh : lastValue keyHeight "# my-config\nwindowWidth=900".toList = none := by decide
  obtain ⟨s1, w, h, e1, e2, dw, dh⟩ :=
    createWindow_dimensions.2 "# my-config\nwindowWidth=900".toList (Host.init false)
  exact ⟨hw, hh, s1, w, h, e1, e2, dw.2.2.2.2.1 _ hw (by decide) (by decide), dh.2.1 hh⟩
